import Mathlib

/-!
Shallow embedding of the zlocalz consistency engine (universal parser,
validator, fixer, diff generator) and proofs about the frozen claims.

Strings are modeled as Lean `String` (a list of characters); the JavaScript
regular-expression scans of the source are translated into structural
recursions over `String.data`.  JavaScript objects / `Map`s are modeled as
association lists in insertion order (`Rec`), with JS assignment semantics
(`rset`: update in place when the key exists, append otherwise) and JS
`delete` (`rerase`).  Raw parsed JSON values are modeled by `JVal`.
-/

theorem dropWhile_len_le (p : Char → Bool) (l : List Char) :
    (l.dropWhile p).length ≤ l.length := by
  induction l with
  | nil => simp
  | cons c rest ih =>
    by_cases h : p c
    · simp only [List.dropWhile, h]
      exact Nat.le_trans ih (Nat.le_succ _)
    · simp [List.dropWhile, h]

/-- Characters treated as whitespace by the JS `\s` class and `trim`
(restricted to the ASCII whitespace appearing in locale values). -/
def isWsC (c : Char) : Bool :=
  c = ' ' ∨ c = '\t' ∨ c = '\n' ∨ c = '\r'

/-- Brace characters, the class `[{}]` of the source regexes. -/
def isBraceC (c : Char) : Bool :=
  c = '{' ∨ c = '}'

/-- Models JS `String.prototype.startsWith`. -/
def strStarts (pre s : String) : Bool :=
  pre.data.isPrefixOf s.data

/-- Substring containment of a pattern, models JS `String.prototype.includes`. -/
def listContainsSub (s pat : List Char) : Bool :=
  match s with
  | [] => pat.isEmpty
  | _ :: rest => pat.isPrefixOf s || listContainsSub rest pat

def strContainsSub (s pat : String) : Bool :=
  listContainsSub s.data pat.data

/-- Replace every (non-overlapping, leftmost) occurrence of `pat` by `rep`;
models the JS global regex replace of a literal pattern.  Structural on a
fuel argument so that the kernel can evaluate it; the fuel `s.length + 1`
is sufficient because every step consumes at least one character of `s`
(the patterns fed to it, `{name}` tokens, are never empty). -/
def replF : Nat → List Char → List Char → List Char → List Char
  | 0, s, _, _ => s
  | _ + 1, [], _, _ => []
  | f + 1, c :: rest, pat, rep =>
    if pat.isPrefixOf (c :: rest) then
      rep ++ replF f ((c :: rest).drop pat.length) pat rep
    else
      c :: replF f rest pat rep

def listReplaceAll (s pat rep : List Char) : List Char :=
  replF (s.length + 1) s pat rep

def strReplaceAll (s pat rep : String) : String :=
  String.mk (listReplaceAll s.data pat.data rep.data)

/-- Left and right brace as strings (used to build `{name}` tokens). -/
def lbr : String := "\x7b"

def rbr : String := "\x7d"

/-- Models JS `String.prototype.trim` (both ends). -/
def jsTrim (s : String) : String :=
  String.mk (((s.data.dropWhile isWsC).reverse.dropWhile isWsC).reverse)

/-- Models `value.replace(/\s+/g, ' ')`: collapse each maximal whitespace
run to a single space.  The Bool state records whether the scan is inside a
whitespace run whose single space was already emitted. -/
def collapseGo : Bool → List Char → List Char
  | _, [] => []
  | inWs, c :: rest =>
    if isWsC c then
      if inWs then collapseGo true rest else ' ' :: collapseGo true rest
    else c :: collapseGo false rest

def jsCollapseWs (s : String) : String := String.mk (collapseGo false s.data)

/-- Lexicographic comparison of strings by character code, models the default
JS `Array.prototype.sort` comparator on strings. -/
def lexLe : List Char → List Char → Bool
  | [], _ => true
  | _ :: _, [] => false
  | a :: as, b :: bs =>
    if a.val < b.val then true
    else if b.val < a.val then false
    else lexLe as bs

def strLe (a b : String) : Bool := lexLe a.data b.data

/-- Insertion of a key into a `strLe`-sorted list of keys. -/
def insSorted (k : String) : List String → List String
  | [] => [k]
  | x :: xs => if strLe k x then k :: x :: xs else x :: insSorted k xs

/-- Sorting of a key list, models JS `Array.prototype.sort()` on strings. -/
def sortStr (l : List String) : List String :=
  l.foldr insSorted []

theorem insSorted_perm (k : String) (l : List String) :
    List.Perm (insSorted k l) (k :: l) := by
  induction l with
  | nil => simp [insSorted]
  | cons x xs ih =>
    by_cases h : strLe k x
    · simp [insSorted, h]
    · simp only [insSorted, h]
      exact ((ih.cons x).trans (List.Perm.swap k x xs)).symm.symm

theorem sortStr_perm (l : List String) : List.Perm (sortStr l) l := by
  induction l with
  | nil => simp [sortStr]
  | cons x xs ih =>
    simpa [sortStr] using (insSorted_perm x (sortStr xs)).trans (ih.cons x)

/-- Raw parsed JSON values (`JSON.parse`), restricted to the shapes a locale
document uses: strings and objects.  An object is an insertion-ordered
association list, as in JS. -/
inductive JVal where
  | str : String → JVal
  | obj : List (String × JVal) → JVal

/-- A JS object / `Map`: an insertion-ordered association list. -/
abbrev Rec (α : Type) : Type := List (String × α)

/-- First binding of a key, models JS property read `r[k]` (`none` is
`undefined`). -/
def rlookup {α : Type} (r : Rec α) (k : String) : Option α :=
  match r with
  | [] => none
  | (k2, v) :: rest => if k2 = k then some v else rlookup rest k

/-- JS assignment `r[k] = v`: update in place when the key exists, append
otherwise. -/
def rset {α : Type} (r : Rec α) (k : String) (v : α) : Rec α :=
  match r with
  | [] => [(k, v)]
  | (k2, v2) :: rest =>
    if k2 = k then (k2, v) :: rest else (k2, v2) :: rset rest k v

/-- JS `delete r[k]`. -/
def rerase {α : Type} (r : Rec α) (k : String) : Rec α :=
  r.filter (fun p => p.1 ≠ k)

/-- JS `Object.keys` (iteration order). -/
def rkeys {α : Type} (r : Rec α) : List String := r.map Prod.fst

/-- JS truthiness of a `JVal`: the empty string is falsy, every object is
truthy. -/
def truthy : JVal → Bool
  | .str s => ¬ s.isEmpty
  | .obj _ => true

def otruthy : Option JVal → Bool
  | none => false
  | some v => truthy v

/-- JS property read `m.f` on a parsed JSON value; reading a named property
off a string yields `undefined`. -/
def getField (m : JVal) (f : String) : Option JVal :=
  match m with
  | .obj fs => rlookup fs f
  | .str _ => none

/-- JS `String(v)` on a parsed JSON value. -/
def jsString : JVal → String
  | .str s => s
  | .obj _ => "[object Object]"

/-- JS `Object.assign(md, v)` where `md` is a plain object.  Assigning from a
string spreads its characters by index (the code only ever reaches this with
object metadata, but the JS semantics is kept). -/
def assignJ (md : Rec JVal) : JVal → Rec JVal
  | .obj fs => fs.foldl (fun m p => rset m p.1 p.2) md
  | .str s =>
    (s.data.enum).foldl
      (fun m p => rset m (toString p.1) (JVal.str (String.mk [p.2]))) md

/-- File formats of `LocaleFileFormat` in `types/index.ts`. -/
inductive LFormat where
  | arb | json | yaml | yml | csv | tsv
deriving DecidableEq, Repr

/-- Key-ordering policy (`preferOrder`). -/
inductive PreferOrder where
  | mirrorSource | alphabetical
deriving DecidableEq, Repr

/-- The slice of `LocalzConfig` the consistency engine reads. -/
structure LocalzConfig where
  doAutoFix : Bool
  preferOrder : Option PreferOrder := none
deriving DecidableEq, Repr

/-- `LocaleEntry` of `types/index.ts`.  `description`, `placeholders`,
`context`, `tags` and `metadata` are raw JS values copied off the parsed
JSON, so they are modeled as optional `JVal`s. -/
structure LocaleEntry where
  key : String
  value : String
  metadata : Option JVal := none
  description : Option JVal := none
  placeholders : Option JVal := none
  context : Option JVal := none
  tags : Option JVal := none

/-- `LocaleFile` of `types/index.ts` (the in-memory locale document; the
`lastModified` timestamp is irrelevant to the engine and omitted). -/
structure LocaleFile where
  locale : String
  path : String
  format : LFormat
  entries : Rec LocaleEntry
  raw : Rec JVal

inductive IssueType where
  | missing | extra | duplicate | icuError | placeholderMismatch | formatting
deriving DecidableEq, Repr

inductive Severity where
  | error | warning
deriving DecidableEq, Repr

/-- `ValidationIssue` of `types/index.ts`. -/
structure ValidationIssue where
  type : IssueType
  locale : String
  key : String
  message : String
  severity : Severity
  sourceValue : Option String := none
  targetValue : Option String := none
  suggestion : Option String := none
deriving DecidableEq, Repr

inductive FixType where
  | addMissing | removeExtra | removeDuplicate | fixPlaceholder | fixICU
  | fixFormatting
deriving DecidableEq, Repr

/-- `Fix` of `types/index.ts` (Mathlib already declares `Fix`, hence the
prime). -/
structure Fix' where
  type : FixType
  locale : String
  key : String
  oldValue : Option String := none
  newValue : Option String := none
  description : String
deriving DecidableEq, Repr

inductive PatchFormat where
  | unified | git
deriving DecidableEq, Repr

/-- `Patch` of `types/index.ts`. -/
structure Patch where
  path : String
  diff : String
  format : PatchFormat
deriving DecidableEq, Repr

/-- The scan of `extractPlaceholders` (`/\{([^}]+)\}/g` run with `exec`):
at each `{`, the greedy run of non-`}` characters must be nonempty and be
followed by `}`; the captured name is collected and scanning resumes after
the closing brace.  The state holds the (reversed) characters of the name
run opened by the most recent unmatched `{`, or `none` outside a run; a
`{` inside a run is part of the captured name, exactly as `[^}]+` accepts
it, and an empty run (`{}`) captures nothing, exactly as `[^}]+` rejects
it. -/
def extractPhGo : Option (List Char) → List Char → List String
  | _, [] => []
  | none, c :: rest =>
    if c = '{' then extractPhGo (some []) rest else extractPhGo none rest
  | some acc, c :: rest =>
    if c = '}' then
      if acc.isEmpty then extractPhGo none rest
      else String.mk acc.reverse :: extractPhGo none rest
    else extractPhGo (some (c :: acc)) rest

/-- `Validator.extractPlaceholders` / `Fixer.extractPlaceholders`. -/
def extractPlaceholders (value : String) : List String :=
  extractPhGo none value.data

/-- `value.replace(/[^{}]+/g, 'TODO')`: every maximal run of non-brace
characters becomes the literal `TODO`; braces are kept.  The Bool state
records whether the scan is inside a non-brace run whose `TODO` was
already emitted. -/
def maskGo : Bool → List Char → List Char
  | _, [] => []
  | inRun, c :: rest =>
    if isBraceC c then c :: maskGo false rest
    else if inRun then maskGo true rest
    else 'T' :: 'O' :: 'D' :: 'O' :: maskGo true rest

def maskNonBrace (l : List Char) : List Char := maskGo false l

/-- `Validator.isICUMessage`. -/
def isICUMessage (value : String) : Bool :=
  strContainsSub value lbr &&
    (strContainsSub value ", plural," || strContainsSub value ", select," ||
      strContainsSub value ", selectordinal,")

/-- Outcome of running the external `@messageformat/parser` on a
source/target pair inside `checkICUMessages`'s `try` block. -/
inductive ICUOutcome where
  | ok
  | mismatch
  | parseFailure (msg : String)
deriving DecidableEq, Repr

/-- Modelled from the spec: the external structured-message collaborator
(`@messageformat/parser` plus `compareICUStructure`) is not part of this
repository; it is abstracted as a function giving, for a source/target pair,
either structural agreement, a structural mismatch, or a parse failure. -/
structure ICUModel where
  compare : String → String → ICUOutcome

/-- A trivial instance of the collaborator (never reports a defect); used to
instantiate closed examples whose values contain no structured messages. -/
def noICU : ICUModel := ⟨fun _ _ => ICUOutcome.ok⟩

/-- The per-entry step of `UniversalParser.parseJsonEntries`: the value is
coerced with `String(value)`, and an ARB-style metadata object under
`'@' ++ key`, when truthy, contributes `metadata`, `description` and
`placeholders`. -/
def mkJsonEntry (raw : Rec JVal) (k : String) (v : JVal) : LocaleEntry :=
  match rlookup raw ("@" ++ k) with
  | some m =>
    if truthy m then
      { key := k, value := jsString v, metadata := some m,
        description := getField m "description",
        placeholders := getField m "placeholders" }
    else { key := k, value := jsString v }
  | none => { key := k, value := jsString v }

/-- `UniversalParser.parseJsonEntries`.  The JS loop assigns
`entries[key] = entry` while iterating the raw object in order; since the
keys of a parsed JSON object are unique, this equals the filtered map in
iteration order.  Keys starting with `@` are skipped (the source's separate
`@@` check is subsumed by the `@` check). -/
def parseJsonEntries (raw : Rec JVal) : Rec LocaleEntry :=
  raw.filterMap (fun p =>
    if strStarts "@" p.1 then none else some (p.1, mkJsonEntry raw p.1 p.2))

/-- The metadata object built by `generateJsonContent`/`serializeARB` for one
entry: `description` and `placeholders` when truthy, then
`Object.assign` from the entry's raw metadata when truthy. -/
def buildMeta (e : LocaleEntry) : Rec JVal :=
  let md0 : Rec JVal :=
    match e.description with
    | some d => if truthy d then [("description", d)] else []
    | none => []
  let md1 : Rec JVal :=
    md0 ++
      (match e.placeholders with
       | some p => if truthy p then [("placeholders", p)] else []
       | none => [])
  match e.metadata with
  | some m => if truthy m then assignJ md1 m else md1
  | none => md1

/-- The per-key output chunk of `generateJsonContent` (`withMeta` selects the
ARB-only metadata emission). -/
def jsonChunk (withMeta : Bool) (entries : Rec LocaleEntry) (k : String) :
    Rec JVal :=
  match rlookup entries k with
  | none => []
  | some e =>
    let base : Rec JVal := [(k, JVal.str e.value)]
    if withMeta &&
        (otruthy e.metadata || otruthy e.description || otruthy e.placeholders)
    then
      let md := buildMeta e
      if md.isEmpty then base else base ++ [("@" ++ k, JVal.obj md)]
    else base

/-- `UniversalParser.generateJsonContent`, modeled up to the final
`JSON.stringify(output, null, 2)`: the function returns the `output` object
(stringification is injective on objects, so structural comparisons happen
here).  Keys come from `Object.keys(entries)` and are sorted only under the
alphabetical ordering policy; `@@locale` is preserved, and per-entry
metadata emitted, only for the ARB format. -/
def generateJsonContent (config : LocalzConfig) (localeFile : LocaleFile) :
    Rec JVal :=
  let pfx : Rec JVal :=
    if localeFile.format = LFormat.arb then
      match rlookup localeFile.raw "@@locale" with
      | some v => if truthy v then [("@@locale", v)] else []
      | none => []
    else []
  let keys0 := rkeys localeFile.entries
  let keys :=
    if config.preferOrder = some PreferOrder.alphabetical then sortStr keys0
    else keys0
  pfx ++
    keys.flatMap
      (jsonChunk (localeFile.format = LFormat.arb) localeFile.entries)

/-- The `LocaleFile` built by `UniversalParser.parseFile` for the JSON/ARB
branch: `raw` is the parsed JSON object itself and `entries` comes from
`parseJsonEntries`. -/
def parseJsonFile (fmt : LFormat) (locale path : String) (raw : Rec JVal) :
    LocaleFile :=
  { locale := locale, path := path, format := fmt,
    entries := parseJsonEntries raw, raw := raw }

/-- `Validator.checkMissingKeys`. -/
def checkMissingKeys (sourceFile targetFile : LocaleFile) :
    List ValidationIssue :=
  sourceFile.entries.filterMap (fun p =>
    if (rkeys targetFile.entries).contains p.1 then none
    else some
      { type := IssueType.missing, locale := targetFile.locale, key := p.1,
        message := "Key \"" ++ p.1 ++ "\" is missing",
        severity := Severity.error, sourceValue := some p.2.value })

/-- `Validator.checkExtraKeys`. -/
def checkExtraKeys (sourceFile targetFile : LocaleFile) :
    List ValidationIssue :=
  targetFile.entries.filterMap (fun p =>
    if (rkeys sourceFile.entries).contains p.1 then none
    else some
      { type := IssueType.extra, locale := targetFile.locale, key := p.1,
        message := "Key \"" ++ p.1 ++ "\" not in source locale",
        severity := Severity.warning, targetValue := some p.2.value })

/-- `Validator.checkDuplicates`: group entries by trimmed value in a `Map`
(insertion order), then flag every member after the first of each group,
referencing the first member's key. -/
def checkDuplicates (targetFile : LocaleFile) : List ValidationIssue :=
  let seenValues : Rec (List String) :=
    targetFile.entries.foldl (fun m p =>
      let v := jsTrim p.2.value
      match rlookup m v with
      | some ks => rset m v (ks ++ [p.1])
      | none => rset m v [p.1]) []
  seenValues.flatMap (fun g =>
    let k0 := g.2.headD ""
    (g.2.drop 1).map (fun k =>
      { type := IssueType.duplicate, locale := targetFile.locale, key := k,
        message := "Duplicate value with key \"" ++ k0 ++ "\"",
        severity := Severity.warning, targetValue := some g.1,
        suggestion :=
          some ("Remove duplicate or differentiate from \"" ++ k0 ++ "\"") }))

/-- The mismatch condition of `Validator.checkPlaceholders`: lists of equal
length and every source name a member of the target set. -/
def phMismatch (sourceValue targetValue : String) : Bool :=
  let sourcePlaceholders := extractPlaceholders sourceValue
  let targetPlaceholders := extractPlaceholders targetValue
  sourcePlaceholders.length ≠ targetPlaceholders.length ||
    ¬ sourcePlaceholders.all (fun p => targetPlaceholders.contains p)

/-- `Validator.checkPlaceholders`. -/
def checkPlaceholders (sourceFile targetFile : LocaleFile) :
    List ValidationIssue :=
  sourceFile.entries.filterMap (fun p =>
    match rlookup targetFile.entries p.1 with
    | none => none
    | some te =>
      if phMismatch p.2.value te.value then
        some
          { type := IssueType.placeholderMismatch,
            locale := targetFile.locale, key := p.1,
            message :=
              "Placeholder mismatch: expected [" ++
                String.intercalate ", " (extractPlaceholders p.2.value) ++
                "], found [" ++
                String.intercalate ", " (extractPlaceholders te.value) ++ "]",
            severity := Severity.error, sourceValue := some p.2.value,
            targetValue := some te.value }
      else none)

/-- `Validator.checkICUMessages`, with the external parser/compare step
supplied by an `ICUModel`. -/
def checkICUMessages (icu : ICUModel) (sourceFile targetFile : LocaleFile) :
    List ValidationIssue :=
  sourceFile.entries.filterMap (fun p =>
    match rlookup targetFile.entries p.1 with
    | none => none
    | some te =>
      if isICUMessage p.2.value then
        match icu.compare p.2.value te.value with
        | ICUOutcome.ok => none
        | ICUOutcome.mismatch =>
          some
            { type := IssueType.icuError, locale := targetFile.locale,
              key := p.1, message := "ICU structure mismatch with source",
              severity := Severity.error, sourceValue := some p.2.value,
              targetValue := some te.value }
        | ICUOutcome.parseFailure m =>
          some
            { type := IssueType.icuError, locale := targetFile.locale,
              key := p.1, message := "Invalid ICU message: " ++ m,
              severity := Severity.error, targetValue := some te.value }
      else none)

/-- `Validator.checkFormatting`: a leading/trailing-whitespace issue and,
independently, a consecutive-spaces issue per entry. -/
def checkFormatting (targetFile : LocaleFile) : List ValidationIssue :=
  targetFile.entries.flatMap (fun p =>
    let v := p.2.value
    (if v ≠ jsTrim v then
      [{ type := IssueType.formatting, locale := targetFile.locale,
         key := p.1, message := "Value has leading or trailing whitespace",
         severity := Severity.warning, targetValue := some v,
         suggestion := some (jsTrim v) }]
     else []) ++
    (if strContainsSub v "  " then
      [{ type := IssueType.formatting, locale := targetFile.locale,
         key := p.1,
         message := "Value contains multiple consecutive spaces",
         severity := Severity.warning, targetValue := some v,
         suggestion := some (jsCollapseWs v) }]
     else []))

/-- `Validator.validateTarget`: the six checks, concatenated in pass order. -/
def validateTarget (icu : ICUModel) (sourceFile targetFile : LocaleFile) :
    List ValidationIssue :=
  checkMissingKeys sourceFile targetFile ++
    checkExtraKeys sourceFile targetFile ++
    checkDuplicates targetFile ++
    checkPlaceholders sourceFile targetFile ++
    checkICUMessages icu sourceFile targetFile ++
    checkFormatting targetFile

/-- Per-issue-kind counters of `Validator.calculateStats`. -/
structure LocaleStats where
  totalKeys : Nat
  missingKeys : Nat
  extraKeys : Nat
  duplicates : Nat
  icuErrors : Nat
  placeholderMismatches : Nat
  formattingWarnings : Nat
deriving DecidableEq, Repr

def calculateStats (sourceFile : LocaleFile) (issues : List ValidationIssue) :
    LocaleStats :=
  { totalKeys := (rkeys sourceFile.entries).length,
    missingKeys := issues.countP (fun i => i.type = IssueType.missing),
    extraKeys := issues.countP (fun i => i.type = IssueType.extra),
    duplicates := issues.countP (fun i => i.type = IssueType.duplicate),
    icuErrors := issues.countP (fun i => i.type = IssueType.icuError),
    placeholderMismatches :=
      issues.countP (fun i => i.type = IssueType.placeholderMismatch),
    formattingWarnings :=
      issues.countP (fun i => i.type = IssueType.formatting) }

/-- `LocaleReport` of `types/index.ts`. -/
structure LocaleReport where
  locale : String
  format : LFormat
  issues : List ValidationIssue
  stats : LocaleStats

/-- `Validator.validate`: one report per target, keyed by locale in a `Map`. -/
def validate (icu : ICUModel) (sourceFile : LocaleFile)
    (targetFiles : List LocaleFile) : Rec LocaleReport :=
  targetFiles.foldl (fun reports targetFile =>
    let issues := validateTarget icu sourceFile targetFile
    rset reports targetFile.locale
      { locale := targetFile.locale, format := targetFile.format,
        issues := issues, stats := calculateStats sourceFile issues }) []

/-- JS `x || dflt` on an optional string: the empty string is falsy. -/
def jsOrStr (o : Option String) (dflt : String) : String :=
  match o with
  | some v => if v.isEmpty then dflt else v
  | none => dflt

/-- `Fixer.generateMissingKeyFix`.  The source reads
`this.sourceFile.entries[issue.key]` unconditionally (a missing issue always
names a source key); an absent source entry is modeled as `none` instead of
the JS runtime error, which is unreachable for validator-produced issues. -/
def generateMissingKeyFix (sourceFile : LocaleFile) (issue : ValidationIssue) :
    Option Fix' :=
  (rlookup sourceFile.entries issue.key).map (fun sourceEntry =>
    let placeholders := extractPlaceholders sourceEntry.value
    let newValue :=
      if placeholders.length > 0 then
        String.mk (maskNonBrace sourceEntry.value.data)
      else "TODO"
    { type := FixType.addMissing, locale := issue.locale, key := issue.key,
      newValue := some newValue,
      description := "Add missing key \"" ++ issue.key ++
        "\" with placeholder structure from source" })

/-- `Fixer.generateExtraKeyFix`. -/
def generateExtraKeyFix (issue : ValidationIssue) : Fix' :=
  { type := FixType.removeExtra, locale := issue.locale, key := issue.key,
    oldValue := issue.targetValue,
    description := "Remove extra key \"" ++ issue.key ++
      "\" not present in source" }

/-- `Fixer.generateDuplicateFix` (the optional-chaining read of the current
target entry's value). -/
def generateDuplicateFix (targetFile : LocaleFile) (issue : ValidationIssue) :
    Fix' :=
  { type := FixType.removeDuplicate, locale := issue.locale, key := issue.key,
    oldValue := (rlookup targetFile.entries issue.key).map (fun e => e.value),
    description := "Remove duplicate key \"" ++ issue.key ++ "\"" }

/-- The Map built by `Fixer.generatePlaceholderFix` from the index-aligned
placeholder pairs: a mismatched pair inserts target-name → source-name; a
repeated target name keeps its first insertion position but takes the later
source name (JS `Map.set`). -/
def buildPhMap (pairs : List (String × String)) : Rec String :=
  pairs.foldl (fun m q => if q.1 ≠ q.2 then rset m q.2 q.1 else m) []

/-- ECMAScript syntax characters.  A pattern character outside this set is
matched literally by the regular-expression engine; a placeholder name made
only of such characters therefore compiles and matches as the literal text
of the name. -/
def regexPlainChar (c : Char) : Bool :=
  ¬ (c = '^' || c = '$' || c = '\\' || c = '.' || c = '*' || c = '+' ||
     c = '?' || c = '(' || c = ')' || c = '[' || c = ']' || c = '{' ||
     c = '}' || c = '|')

/-- A placeholder name the JS engine treats as plain text inside the
compiled pattern. -/
def regexPlain (s : String) : Bool := s.data.all regexPlainChar

/-- A replacement string that `String.prototype.replace` inserts verbatim:
one with no `$` substitution patterns. -/
def replPlain (s : String) : Bool := s.data.all (fun c => ¬ c = '$')

/-- Modelled from the spec: the JavaScript regular-expression engine, as
invoked by `Fixer.generatePlaceholderFix` through
`value.replace(new RegExp('\\{' + old + '\\}', 'g'), '{' + new + '}')`.
`replacePh old new s` returns
`none` when `new RegExp` construction throws (for example an unbalanced
`(` in the name) and the replaced string otherwise.  The `law` pins the
engine down exactly where ECMAScript fixes its behaviour syntactically: a
name of plain pattern characters compiles, matches the literal token, and a
`$`-free replacement is inserted verbatim.  Behaviour on metacharacter
names (such as `.` matching any character) is deliberately left
unconstrained. -/
structure JSRegExp where
  replacePh : String → String → String → Option String
  law : ∀ old nw s, regexPlain old = true → replPlain nw = true →
    replacePh old nw s =
      some (strReplaceAll s (lbr ++ old ++ rbr) (lbr ++ nw ++ rbr))

/-- The literal-token instance of `JSRegExp`: every name is replaced as the
literal token and construction never throws.  It satisfies `law`
definitionally.  The fix pipeline below is instantiated with it; the
key-set facts proved about `autoFix` do not depend on replacement values,
and the C5 theorem quantifies over every lawful engine instead. -/
def jsRegExpLit : JSRegExp :=
  { replacePh := fun old nw s =>
      some (strReplaceAll s (lbr ++ old ++ rbr) (lbr ++ nw ++ rbr)),
    law := fun _ _ _ _ _ => rfl }

/-- `Fixer.generatePlaceholderFix`.  The falsy guard
`!issue.sourceValue || !issue.targetValue` also catches empty strings.
Each rename step is the source's
`fixedValue.replace(new RegExp(..., 'g'), ...)` performed by the regex
model `R`; a throwing `RegExp` construction (`R.replacePh` returning
`none`) makes the whole call fail with `none` — the JS exception would
propagate out of `autoFix`. -/
def generatePlaceholderFix (R : JSRegExp) (issue : ValidationIssue) :
    Option Fix' :=
  match issue.sourceValue, issue.targetValue with
  | some sv, some tv =>
    if sv.isEmpty || tv.isEmpty then
      some
        { type := FixType.fixPlaceholder, locale := issue.locale,
          key := issue.key,
          description :=
            "Cannot fix placeholder without source/target values" }
    else
      let sourcePlaceholders := extractPlaceholders sv
      let targetPlaceholders := extractPlaceholders tv
      let placeholderMap :=
        buildPhMap (sourcePlaceholders.zip targetPlaceholders)
      (placeholderMap.foldl (fun acc q =>
          acc.bind (fun a => R.replacePh q.1 q.2 a)) (some tv)).map
        (fun fixedValue =>
          { type := FixType.fixPlaceholder, locale := issue.locale,
            key := issue.key, oldValue := some tv,
            newValue := some fixedValue,
            description := "Fix placeholder names to match source" })
  | _, _ =>
    some
      { type := FixType.fixPlaceholder, locale := issue.locale,
        key := issue.key,
        description := "Cannot fix placeholder without source/target values" }

/-- `Fixer.generateFormattingFix` (`issue.suggestion ||
issue.targetValue?.trim().replace(/\s+/g, ' ')`). -/
def generateFormattingFix (issue : ValidationIssue) : Fix' :=
  let fallback := issue.targetValue.map (fun v => jsCollapseWs (jsTrim v))
  { type := FixType.fixFormatting, locale := issue.locale, key := issue.key,
    oldValue := issue.targetValue,
    newValue :=
      (match issue.suggestion with
       | some sug => if sug.isEmpty then fallback else some sug
       | none => fallback),
    description := "Fix formatting issues in \"" ++ issue.key ++ "\"" }

/-- Character class kept verbatim by the ICU structural mask
(`[^{}=\s]` complement). -/
def icuAllowed (c : Char) : Bool := isBraceC c || c = '=' || isWsC c

/-- `fullMatch.replace(/[^{}=\s]+(?=[^{}]*[{}])/g, 'TODO')`: a maximal run
of label characters is replaced by `TODO` when a brace follows somewhere
after it (the lookahead), and kept verbatim otherwise.  Since run characters
are never braces, the lookahead is equivalent to a brace occurring in the
current suffix. -/
def icuMaskGo : Bool → List Char → List Char
  | _, [] => []
  | inRun, c :: rest =>
    if icuAllowed c then c :: icuMaskGo false rest
    else if inRun then icuMaskGo true rest
    else if (c :: rest).any isBraceC then
      'T' :: 'O' :: 'D' :: 'O' :: icuMaskGo true rest
    else c :: icuMaskGo false rest

/-- Deterministic match of
`\{[^,]+,\s*(plural|select|selectordinal),[^}]+\}` at the head of the list,
returning the matched characters and the remainder.  The alternation is
resolved longest-first, which coincides with the JS backtracking (after
`select`, a following `o` fails the required comma and backtracks into
`selectordinal`). -/
def icuTryAt : List Char → Option (List Char × List Char)
  | '{' :: r1 =>
    let arg := r1.takeWhile (fun d => d ≠ ',')
    if arg.isEmpty then none
    else
      match r1.dropWhile (fun d => d ≠ ',') with
      | ',' :: r2 =>
        let ws := r2.takeWhile isWsC
        let r3 := r2.dropWhile isWsC
        let tyM : Option (List Char × List Char) :=
          if ("plural".data).isPrefixOf r3 then some ("plural".data, r3.drop 6)
          else if ("selectordinal".data).isPrefixOf r3 then
            some ("selectordinal".data, r3.drop 13)
          else if ("select".data).isPrefixOf r3 then
            some ("select".data, r3.drop 6)
          else none
        match tyM with
        | some (ty, r4) =>
          (match r4 with
           | ',' :: r5 =>
             let body := r5.takeWhile (fun d => d ≠ '}')
             if body.isEmpty then none
             else
               match r5.dropWhile (fun d => d ≠ '}') with
               | '}' :: r6 =>
                 some ('{' :: (arg ++ ',' :: (ws ++ ty ++ ',' ::
                   (body ++ ['}']))), r6)
               | _ => none
           | _ => none)
        | none => none
      | _ => none
  | _ => none

/-- All (leftmost, non-overlapping) matches of the ICU argument pattern,
models `sourceValue.matchAll(icuPattern)`.  Structural on a fuel argument;
`l.length + 1` is sufficient fuel since every step consumes at least one
character. -/
def icuFindF : Nat → List Char → List (List Char)
  | 0, _ => []
  | _ + 1, [] => []
  | f + 1, c :: rest =>
    if c = '{' then
      match icuTryAt (c :: rest) with
      | some (m, tail) => m :: icuFindF f tail
      | none => icuFindF f rest
    else icuFindF f rest

def icuFindMatches (l : List Char) : List (List Char) :=
  icuFindF (l.length + 1) l

/-- `Fixer.generateICUFix` (the regex-driven structural heuristic; the loop
leaves the mask of the last match as `fixedValue`). -/
def generateICUFix (issue : ValidationIssue) : Fix' :=
  match issue.sourceValue with
  | some sv =>
    if sv.isEmpty then
      { type := FixType.fixICU, locale := issue.locale, key := issue.key,
        description := "Cannot fix ICU without source value" }
    else
      let ms := icuFindMatches sv.data
      let fixedValue :=
        ms.foldl (fun _acc m => String.mk (icuMaskGo false m))
          (issue.targetValue.getD "")
      { type := FixType.fixICU, locale := issue.locale, key := issue.key,
        oldValue := issue.targetValue, newValue := some fixedValue,
        description := "Fix ICU structure to match source" }
  | none =>
    { type := FixType.fixICU, locale := issue.locale, key := issue.key,
      description := "Cannot fix ICU without source value" }

/-- `Fixer.generateFix`: dispatch on the issue kind (the `default: null`
branch of the source is unreachable over the closed issue-kind enum).  The
placeholder arm runs under the literal engine instance `jsRegExpLit`, which
never returns `none`, so the `none` of `generateFix` still corresponds
exactly to the source's `null`. -/
def generateFix (sourceFile targetFile : LocaleFile)
    (issue : ValidationIssue) : Option Fix' :=
  match issue.type with
  | IssueType.missing => generateMissingKeyFix sourceFile issue
  | IssueType.extra => some (generateExtraKeyFix issue)
  | IssueType.duplicate => some (generateDuplicateFix targetFile issue)
  | IssueType.placeholderMismatch => generatePlaceholderFix jsRegExpLit issue
  | IssueType.formatting => some (generateFormattingFix issue)
  | IssueType.icuError => some (generateICUFix issue)

/-- `Fixer.applyFix`.  `addMissing` reads the source entry's metadata (absent
source entries are modeled as empty metadata instead of the unreachable JS
runtime error); the falsy guard `fix.newValue && targetFile.entries[fix.key]`
skips the value-replacing kinds when `newValue` is absent or empty or the
entry does not exist. -/
def applyFix (sourceFile : LocaleFile) (fix : Fix')
    (targetFile : LocaleFile) : LocaleFile :=
  match fix.type with
  | FixType.addMissing =>
    let se := rlookup sourceFile.entries fix.key
    { targetFile with
        entries := rset targetFile.entries fix.key
          { key := fix.key, value := jsOrStr fix.newValue "TODO",
            metadata := se.bind (fun e => e.metadata),
            description := se.bind (fun e => e.description),
            placeholders := se.bind (fun e => e.placeholders) } }
  | FixType.removeExtra =>
    { targetFile with
        entries := rerase targetFile.entries fix.key,
        raw := rerase (rerase targetFile.raw fix.key) ("@" ++ fix.key) }
  | FixType.removeDuplicate =>
    { targetFile with
        entries := rerase targetFile.entries fix.key,
        raw := rerase (rerase targetFile.raw fix.key) ("@" ++ fix.key) }
  | _ =>
    match fix.newValue with
    | some nv =>
      if ¬ nv.isEmpty ∧ (rlookup targetFile.entries fix.key).isSome then
        { targetFile with
            entries := targetFile.entries.map (fun p =>
              if p.1 = fix.key then (p.1, { p.2 with value := nv }) else p) }
      else targetFile
    | none => targetFile

/-- `Fixer.reorderToMatchSource`, as the pure function it computes: source
keys first (those present in the target), then the target-only survivors in
their prior relative order. -/
def reorderToMatchSource (sourceFile targetFile : LocaleFile) : LocaleFile :=
  let sourceKeys := rkeys sourceFile.entries
  let reordered := sourceKeys.filterMap (fun k =>
    (rlookup targetFile.entries k).map (fun e => (k, e)))
  let targetOnly := targetFile.entries.filter
    (fun p => ¬ sourceKeys.contains p.1)
  { targetFile with entries := reordered ++ targetOnly }

/-- `Fixer.reorderAlphabetically`. -/
def reorderAlphabetically (targetFile : LocaleFile) : LocaleFile :=
  let sortedKeys := sortStr (rkeys targetFile.entries)
  { targetFile with
      entries := sortedKeys.filterMap (fun k =>
        (rlookup targetFile.entries k).map (fun e => (k, e))) }

/-- `lodash.cloneDeep` on a raw JSON value. -/
def cloneJVal : JVal → JVal
  | JVal.str s => JVal.str s
  | JVal.obj fs => JVal.obj (fs.attach.map (fun q => (q.1.1, cloneJVal q.1.2)))
termination_by v => sizeOf v
decreasing_by
  obtain ⟨⟨a, b⟩, hm⟩ := q
  have h1 := List.sizeOf_lt_of_mem hm
  simp at h1 ⊢
  omega

/-- `lodash.cloneDeep` on a `LocaleEntry`. -/
def cloneLocaleEntry (e : LocaleEntry) : LocaleEntry :=
  { key := e.key, value := e.value, metadata := e.metadata.map cloneJVal,
    description := e.description.map cloneJVal,
    placeholders := e.placeholders.map cloneJVal,
    context := e.context.map cloneJVal, tags := e.tags.map cloneJVal }

/-- `lodash.cloneDeep(targetFile)`: a structural deep copy of the document. -/
def cloneLocaleFile (f : LocaleFile) : LocaleFile :=
  { locale := f.locale, path := f.path, format := f.format,
    entries := f.entries.map (fun p => (p.1, cloneLocaleEntry p.2)),
    raw := f.raw.map (fun p => (p.1, cloneJVal p.2)) }

/-- One iteration of the `autoFix` loop: generate the fix for the issue
against the document being fixed, and apply it (collecting it) only when
auto-fix is authorized. -/
def autoFixStep (config : LocalzConfig) (sourceFile : LocaleFile)
    (st : LocaleFile × List Fix') (issue : ValidationIssue) :
    LocaleFile × List Fix' :=
  match generateFix sourceFile st.1 issue with
  | some fix =>
    if config.doAutoFix then (applyFix sourceFile fix st.1, st.2 ++ [fix])
    else st
  | none => st

/-- `Fixer.autoFix`: deep-copy the target, process the issues in order, then
re-order per policy. -/
def autoFix (config : LocalzConfig) (sourceFile targetFile : LocaleFile)
    (issues : List ValidationIssue) : LocaleFile × List Fix' :=
  let st := issues.foldl (autoFixStep config sourceFile)
    (cloneLocaleFile targetFile, [])
  let fixedFile :=
    if config.preferOrder = some PreferOrder.mirrorSource then
      reorderToMatchSource sourceFile st.1
    else if config.preferOrder = some PreferOrder.alphabetical then
      reorderAlphabetically st.1
    else st.1
  (fixedFile, st.2)

/-- JSON string escaping used by the canonical serializer. -/
def escJsonC (c : Char) : List Char :=
  if c = '"' then ['\\', '"']
  else if c = '\\' then ['\\', '\\']
  else if c = '\n' then ['\\', 'n']
  else if c = '\t' then ['\\', 't']
  else if c = '\r' then ['\\', 'r']
  else [c]

def escJson (s : String) : String := String.mk (s.data.flatMap escJsonC)

/-- `JSON.stringify(v, null, 2)` at indentation `ind`. -/
def jvalText : JVal → String → String
  | JVal.str s, _ => "\"" ++ escJson s ++ "\""
  | JVal.obj fs, ind =>
    if fs.isEmpty then "\x7b\x7d"
    else
      "\x7b\n" ++
        String.intercalate ",\n"
          (fs.attach.map (fun q =>
            ind ++ "  \"" ++ escJson q.1.1 ++ "\": " ++
              jvalText q.1.2 (ind ++ "  "))) ++
        "\n" ++ ind ++ "\x7d"
termination_by v => sizeOf v
decreasing_by
  obtain ⟨⟨a, b⟩, hm⟩ := q
  have h1 := List.sizeOf_lt_of_mem hm
  simp at h1 ⊢
  omega

/-- `DiffGenerator.serializeARB`, modeled at the object level: `@@locale`
first when truthy, then the key-sorted entries with their metadata blocks
(the per-key logic coincides with the ARB branch of `generateJsonContent`,
hence the shared `jsonChunk`). -/
def serializeARB (file : LocaleFile) : Rec JVal :=
  let pfx : Rec JVal :=
    match rlookup file.raw "@@locale" with
    | some v => if truthy v then [("@@locale", v)] else []
    | none => []
  pfx ++ (sortStr (rkeys file.entries)).flatMap (jsonChunk true file.entries)

/-- The canonical serialized text (`JSON.stringify(output, null, 2) + '\n'`). -/
def serializeARBText (file : LocaleFile) : String :=
  jvalText (JVal.obj (serializeARB file)) "" ++ "\n"

/-- Modelled from the spec: `createTwoFilesPatch` of the external `diff`
package (a unified diff with 3 lines of context and virtual headers
"original"/"modified").  No claim inspects the diff text, so it is modeled
as a tagged combination of its inputs. -/
def createTwoFilesPatch
    (oldPath newPath oldStr newStr oldHeader newHeader : String) : String :=
  "--- " ++ oldPath ++ "\t" ++ oldHeader ++ "\n" ++
    "+++ " ++ newPath ++ "\t" ++ newHeader ++ "\n" ++ oldStr ++ "\n" ++ newStr

/-- `DiffGenerator.generatePatch` (with the default `'unified'` format). -/
def generatePatch (originalFile modifiedFile : LocaleFile) : Patch :=
  { path := modifiedFile.path,
    diff := createTwoFilesPatch originalFile.path modifiedFile.path
      (serializeARBText originalFile) (serializeARBText modifiedFile)
      "original" "modified",
    format := PatchFormat.unified }

/-- `DiffGenerator.hasChanges`: byte comparison of the two canonical
serializations. -/
def hasChanges (originalFile modifiedFile : LocaleFile) : Bool :=
  serializeARBText originalFile ≠ serializeARBText modifiedFile

/-- `DiffGenerator.generatePatches`: iterate the modified map, skip locales
with no original, and emit a patch only when the canonical serializations
differ. -/
def generatePatches (originalFiles modifiedFiles : Rec LocaleFile) :
    List Patch :=
  modifiedFiles.foldl (fun patches q =>
    match rlookup originalFiles q.1 with
    | none => patches
    | some originalFile =>
      if hasChanges originalFile q.2 then
        patches ++ [generatePatch originalFile q.2]
      else patches) []

theorem rlookup_eq_none_iff {α : Type} (r : Rec α) (k : String) :
    rlookup r k = none ↔ k ∉ rkeys r := by
  induction r with
  | nil => simp [rlookup, rkeys]
  | cons p rest ih =>
    obtain ⟨k2, v⟩ := p
    by_cases h : k2 = k
    · subst h
      simp [rlookup, rkeys]
    · simp [rlookup, rkeys, h, ih]
      intro hk
      exact fun hkk => h hkk.symm

theorem rlookup_isSome_iff {α : Type} (r : Rec α) (k : String) :
    (rlookup r k).isSome = true ↔ k ∈ rkeys r := by
  constructor
  · intro hs
    by_contra hk
    rw [(rlookup_eq_none_iff r k).mpr hk] at hs
    simp at hs
  · intro hk
    cases h : rlookup r k with
    | none => exact absurd hk ((rlookup_eq_none_iff r k).mp h)
    | some v => simp

theorem mem_of_rlookup_eq_some {α : Type} {r : Rec α} {k : String} {v : α}
    (h : rlookup r k = some v) : (k, v) ∈ r := by
  induction r with
  | nil => simp [rlookup] at h
  | cons p rest ih =>
    obtain ⟨k2, v2⟩ := p
    by_cases hk : k2 = k
    · subst hk
      simp [rlookup] at h
      subst h
      exact List.mem_cons_self _ _
    · simp [rlookup, hk] at h
      exact List.mem_cons_of_mem _ (ih h)

theorem rlookup_of_mem_nodup {α : Type} {r : Rec α} {k : String} {v : α}
    (hn : (rkeys r).Nodup) (h : (k, v) ∈ r) : rlookup r k = some v := by
  induction r with
  | nil => simp at h
  | cons p rest ih =>
    obtain ⟨k2, v2⟩ := p
    rw [show rkeys ((k2, v2) :: rest) = k2 :: rkeys rest from rfl,
      List.nodup_cons] at hn
    rcases List.mem_cons.mp h with heq | hmem
    · cases heq
      simp [rlookup]
    · have hk2 : k2 ≠ k := by
        intro he
        subst he
        exact hn.1 (by simpa [rkeys] using List.mem_map_of_mem Prod.fst hmem)
      simp [rlookup, hk2]
      exact ih hn.2 hmem

theorem rlookup_append {α : Type} (a b : Rec α) (k : String) :
    rlookup (a ++ b) k = (rlookup a k).or (rlookup b k) := by
  induction a with
  | nil => simp [rlookup]
  | cons p rest ih =>
    obtain ⟨k2, v⟩ := p
    by_cases h : k2 = k
    · simp [rlookup, h]
    · simp [rlookup, h, ih]

theorem rlookup_rset {α : Type} (r : Rec α) (k k2 : String) (v : α) :
    rlookup (rset r k v) k2 = if k = k2 then some v else rlookup r k2 := by
  induction r with
  | nil =>
    by_cases h : k = k2 <;> simp [rset, rlookup, h]
  | cons p rest ih =>
    obtain ⟨k3, v3⟩ := p
    by_cases h3 : k3 = k
    · subst h3
      by_cases h : k3 = k2 <;> simp [rset, rlookup, h]
    · by_cases h2 : k3 = k2
      · subst h2
        have : k ≠ k3 := fun he => h3 he.symm
        simp [rset, rlookup, h3, this]
      · simp [rset, rlookup, h3, h2, ih]

theorem rkeys_rset {α : Type} (r : Rec α) (k : String) (v : α) :
    rkeys (rset r k v) =
      if (rkeys r).contains k then rkeys r else rkeys r ++ [k] := by
  induction r with
  | nil => simp [rset, rkeys]
  | cons p rest ih =>
    obtain ⟨k2, v2⟩ := p
    by_cases h : k2 = k
    · subst h
      simp [rset, rkeys]
    · have step : rset ((k2, v2) :: rest) k v = (k2, v2) :: rset rest k v := by
        simp [rset, h]
      have keq : rkeys ((k2, v2) :: rset rest k v) =
          k2 :: rkeys (rset rest k v) := rfl
      rw [step, keq, ih]
      have hb : (k == k2) = false := by
        simp
        exact fun he => h he.symm
      simp only [rkeys, List.map_cons]
      by_cases hc : (List.map Prod.fst rest).contains k = true
      · rw [hc, if_pos rfl, List.contains_cons, hb, Bool.false_or, hc,
          if_pos rfl]
      · have hc2 : (List.map Prod.fst rest).contains k = false := by
          simpa using hc
        rw [hc2, List.contains_cons, hb, Bool.false_or, hc2]
        simp

theorem rlookup_rerase {α : Type} (r : Rec α) (k k2 : String) :
    rlookup (rerase r k) k2 = if k = k2 then none else rlookup r k2 := by
  induction r with
  | nil => by_cases h : k = k2 <;> simp [rerase, rlookup, h]
  | cons p rest ih =>
    obtain ⟨k3, v3⟩ := p
    by_cases h3 : k3 = k
    · subst h3
      have step : rerase ((k3, v3) :: rest) k3 = rerase rest k3 := by
        simp [rerase]
      rw [step, ih]
      by_cases h : k3 = k2
      · simp [h]
      · simp [h, rlookup]
    · have step : rerase ((k3, v3) :: rest) k = (k3, v3) :: rerase rest k := by
        simp [rerase, h3]
      rw [step]
      by_cases h2 : k3 = k2
      · subst h2
        have hk : k ≠ k3 := fun he => h3 he.symm
        simp [rlookup, hk]
      · simp [rlookup, h2, ih]

theorem filterMap_if_keys (es : Rec LocaleEntry) (c : String → Bool)
    (f : String × LocaleEntry → ValidationIssue)
    (hf : ∀ p, (f p).key = p.1) :
    (es.filterMap (fun p => if c p.1 then none else some (f p))).map
        (fun i => i.key) =
      (rkeys es).filter (fun k => !(c k)) := by
  induction es with
  | nil => simp [rkeys]
  | cons p rest ih =>
    by_cases h : c p.1
    · simp [rkeys, h] at ih ⊢
      exact ih
    · simp [rkeys, h, hf] at ih ⊢
      exact ih

theorem checkMissing_keys (s t : LocaleFile) :
    (checkMissingKeys s t).map (fun i => i.key) =
      (rkeys s.entries).filter (fun k => !((rkeys t.entries).contains k)) :=
  filterMap_if_keys _ _ _ (fun _ => rfl)

theorem checkExtra_keys (s t : LocaleFile) :
    (checkExtraKeys s t).map (fun i => i.key) =
      (rkeys t.entries).filter (fun k => !((rkeys s.entries).contains k)) :=
  filterMap_if_keys _ _ _ (fun _ => rfl)

theorem mem_checkMissing (s t : LocaleFile) (i : ValidationIssue)
    (hi : i ∈ checkMissingKeys s t) :
    i.type = IssueType.missing ∧ i.severity = Severity.error ∧
      ((rkeys t.entries).contains i.key) = false ∧
      ∃ e, (i.key, e) ∈ s.entries ∧ i.sourceValue = some e.value := by
  rw [checkMissingKeys, List.mem_filterMap] at hi
  obtain ⟨p, hp, hf⟩ := hi
  by_cases h : (rkeys t.entries).contains p.1
  · simp at hf
    exact absurd hf.1 (by simpa using h)
  · simp at hf
    obtain ⟨hnc, heq⟩ := hf
    subst heq
    refine ⟨rfl, rfl, by simpa using h, p.2, ?_, rfl⟩
    simpa using hp

theorem mem_checkExtra (s t : LocaleFile) (i : ValidationIssue)
    (hi : i ∈ checkExtraKeys s t) :
    i.type = IssueType.extra ∧ i.severity = Severity.warning ∧
      ((rkeys s.entries).contains i.key) = false ∧
      ∃ e, (i.key, e) ∈ t.entries ∧ i.targetValue = some e.value := by
  rw [checkExtraKeys, List.mem_filterMap] at hi
  obtain ⟨p, hp, hf⟩ := hi
  by_cases h : (rkeys s.entries).contains p.1
  · simp at hf
    exact absurd hf.1 (by simpa using h)
  · simp at hf
    obtain ⟨hnc, heq⟩ := hf
    subst heq
    refine ⟨rfl, rfl, by simpa using h, p.2, ?_, rfl⟩
    simpa using hp

theorem mem_checkDuplicates_type (t : LocaleFile) (i : ValidationIssue)
    (hi : i ∈ checkDuplicates t) : i.type = IssueType.duplicate := by
  simp only [checkDuplicates, List.mem_flatMap, List.mem_map] at hi
  obtain ⟨g, _, k, _, rfl⟩ := hi
  rfl

theorem mem_checkPlaceholders (s t : LocaleFile) (i : ValidationIssue)
    (hi : i ∈ checkPlaceholders s t) :
    i.type = IssueType.placeholderMismatch ∧ i.severity = Severity.error ∧
      ∃ se te, (i.key, se) ∈ s.entries ∧ rlookup t.entries i.key = some te ∧
        phMismatch se.value te.value = true ∧
        i.sourceValue = some se.value ∧ i.targetValue = some te.value := by
  rw [checkPlaceholders, List.mem_filterMap] at hi
  obtain ⟨p, hp, hf⟩ := hi
  cases hrl : rlookup t.entries p.1 with
  | none => simp [hrl] at hf
  | some te =>
    by_cases h : phMismatch p.2.value te.value
    · simp [hrl, h] at hf
      subst hf
      exact ⟨rfl, rfl, p.2, te, by simpa using hp, hrl, h, rfl, rfl⟩
    · simp [hrl, h] at hf

theorem mem_checkICU_type (icu : ICUModel) (s t : LocaleFile)
    (i : ValidationIssue) (hi : i ∈ checkICUMessages icu s t) :
    i.type = IssueType.icuError := by
  rw [checkICUMessages, List.mem_filterMap] at hi
  obtain ⟨p, hp, hf⟩ := hi
  cases hrl : rlookup t.entries p.1 with
  | none => simp [hrl] at hf
  | some te =>
    by_cases h : isICUMessage p.2.value
    · cases hc : icu.compare p.2.value te.value with
      | ok => simp [hrl, h, hc] at hf
      | mismatch =>
        simp [hrl, h, hc] at hf
        subst hf
        rfl
      | parseFailure m =>
        simp [hrl, h, hc] at hf
        subst hf
        rfl
    · simp [hrl, h] at hf

theorem mem_checkFormatting_type (t : LocaleFile) (i : ValidationIssue)
    (hi : i ∈ checkFormatting t) : i.type = IssueType.formatting := by
  simp only [checkFormatting, List.mem_flatMap, List.mem_append] at hi
  obtain ⟨p, _, hcase⟩ := hi
  rcases hcase with hca | hca
  · by_cases h : p.2.value ≠ jsTrim p.2.value
    · simp [h] at hca
      subst hca
      rfl
    · simp [h] at hca
  · by_cases h : strContainsSub p.2.value "  "
    · simp [h] at hca
      subst hca
      rfl
    · simp [h] at hca

/-- C3: for every source document and target document, validation emits one
`missing` issue (severity error, with the source value attached as
`sourceValue`) for exactly each source key absent from the target, one
`extra` issue (severity warning) for exactly each target key absent from the
source, and no other check contributes issues of these two kinds. -/
theorem spec_C3_missing_extra (icu : ICUModel) (s t : LocaleFile)
    (hs : (rkeys s.entries).Nodup) (ht : (rkeys t.entries).Nodup) :
    ((checkMissingKeys s t).map (fun i => i.key) =
        (rkeys s.entries).filter (fun k => !((rkeys t.entries).contains k)))
    ∧ (∀ i ∈ checkMissingKeys s t,
        i.type = IssueType.missing ∧ i.severity = Severity.error ∧
          i.sourceValue = (rlookup s.entries i.key).map (fun e => e.value))
    ∧ ((checkExtraKeys s t).map (fun i => i.key) =
        (rkeys t.entries).filter (fun k => !((rkeys s.entries).contains k)))
    ∧ (∀ i ∈ checkExtraKeys s t,
        i.type = IssueType.extra ∧ i.severity = Severity.warning ∧
          i.targetValue = (rlookup t.entries i.key).map (fun e => e.value))
    ∧ (∀ i ∈ validateTarget icu s t,
        (i.type = IssueType.missing → i ∈ checkMissingKeys s t) ∧
          (i.type = IssueType.extra → i ∈ checkExtraKeys s t)) := by
  refine ⟨checkMissing_keys s t, ?_, checkExtra_keys s t, ?_, ?_⟩
  · intro i hi
    obtain ⟨h1, h2, _, e, hme, hsv⟩ := mem_checkMissing s t i hi
    refine ⟨h1, h2, ?_⟩
    rw [rlookup_of_mem_nodup hs hme, hsv]
    rfl
  · intro i hi
    obtain ⟨h1, h2, _, e, hme, htv⟩ := mem_checkExtra s t i hi
    refine ⟨h1, h2, ?_⟩
    rw [rlookup_of_mem_nodup ht hme, htv]
    rfl
  · intro i hi
    rw [validateTarget] at hi
    simp only [List.mem_append] at hi
    constructor
    · intro hty
      rcases hi with ((((h | h) | h) | h) | h) | h
      · exact h
      · have h1 := (mem_checkExtra s t i h).1
        rw [h1] at hty
        exact absurd hty (by decide)
      · have h1 := mem_checkDuplicates_type t i h
        rw [h1] at hty
        exact absurd hty (by decide)
      · have h1 := (mem_checkPlaceholders s t i h).1
        rw [h1] at hty
        exact absurd hty (by decide)
      · have h1 := mem_checkICU_type icu s t i h
        rw [h1] at hty
        exact absurd hty (by decide)
      · have h1 := mem_checkFormatting_type t i h
        rw [h1] at hty
        exact absurd hty (by decide)
    · intro hty
      rcases hi with ((((h | h) | h) | h) | h) | h
      · have h1 := (mem_checkMissing s t i h).1
        rw [h1] at hty
        exact absurd hty (by decide)
      · exact h
      · have h1 := mem_checkDuplicates_type t i h
        rw [h1] at hty
        exact absurd hty (by decide)
      · have h1 := (mem_checkPlaceholders s t i h).1
        rw [h1] at hty
        exact absurd hty (by decide)
      · have h1 := mem_checkICU_type icu s t i h
        rw [h1] at hty
        exact absurd hty (by decide)
      · have h1 := mem_checkFormatting_type t i h
        rw [h1] at hty
        exact absurd hty (by decide)

/-- Concrete source document for the C3 witness (keys `a`, `b`). -/
def c3src : LocaleFile :=
  { locale := "en", path := "en.json", format := LFormat.json,
    entries := [("a", { key := "a", value := "x" }),
                ("b", { key := "b", value := "y" })],
    raw := [] }

/-- Concrete target document for the C3 witness (keys `b`, `c`). -/
def c3tgt : LocaleFile :=
  { locale := "es", path := "es.json", format := LFormat.json,
    entries := [("b", { key := "b", value := "z" }),
                ("c", { key := "c", value := "w" })],
    raw := [] }

/-- Witness for C3 at a concrete source/target pair with both a missing and
an extra key. -/
theorem spec_C3_missing_extra_witness :
    ((rkeys c3src.entries).Nodup ∧ (rkeys c3tgt.entries).Nodup) ∧
    (((checkMissingKeys c3src c3tgt).map (fun i => i.key) =
        (rkeys c3src.entries).filter
          (fun k => !((rkeys c3tgt.entries).contains k)))
    ∧ (∀ i ∈ checkMissingKeys c3src c3tgt,
        i.type = IssueType.missing ∧ i.severity = Severity.error ∧
          i.sourceValue = (rlookup c3src.entries i.key).map (fun e => e.value))
    ∧ ((checkExtraKeys c3src c3tgt).map (fun i => i.key) =
        (rkeys c3tgt.entries).filter
          (fun k => !((rkeys c3src.entries).contains k)))
    ∧ (∀ i ∈ checkExtraKeys c3src c3tgt,
        i.type = IssueType.extra ∧ i.severity = Severity.warning ∧
          i.targetValue = (rlookup c3tgt.entries i.key).map (fun e => e.value))
    ∧ (∀ i ∈ validateTarget noICU c3src c3tgt,
        (i.type = IssueType.missing → i ∈ checkMissingKeys c3src c3tgt) ∧
          (i.type = IssueType.extra → i ∈ checkExtraKeys c3src c3tgt))) :=
  ⟨⟨by decide, by decide⟩,
    spec_C3_missing_extra noICU c3src c3tgt (by decide) (by decide)⟩

theorem checkPlaceholders_keys (s t : LocaleFile) :
    (checkPlaceholders s t).map (fun i => i.key) =
      (s.entries.filter (fun p =>
        ((rlookup t.entries p.1).map
          (fun te => phMismatch p.2.value te.value)).getD false)).map
        Prod.fst := by
  rw [checkPlaceholders]
  induction s.entries with
  | nil => simp
  | cons p rest ih =>
    cases hrl : rlookup t.entries p.1 with
    | none => simpa [hrl] using ih
    | some te =>
      by_cases h : phMismatch p.2.value te.value
      · simpa [hrl, h] using ih
      · simpa [hrl, h] using ih

/-- C4: for every key present in both documents, a `placeholderMismatch`
issue (severity error) is emitted iff the extracted placeholder lists fail
the size-and-membership condition; placeholder order alone never triggers
the issue, and a pair with no placeholders on either side yields none. -/
theorem spec_C4_placeholder_mismatch (s t : LocaleFile)
    (hs : (rkeys s.entries).Nodup) (ht : (rkeys t.entries).Nodup) :
    ((checkPlaceholders s t).map (fun i => i.key) =
        (s.entries.filter (fun p =>
          ((rlookup t.entries p.1).map
            (fun te => phMismatch p.2.value te.value)).getD false)).map
          Prod.fst)
    ∧ (((checkPlaceholders s t).map (fun i => i.key)).Nodup)
    ∧ (∀ i ∈ checkPlaceholders s t,
        i.type = IssueType.placeholderMismatch ∧
          i.severity = Severity.error ∧
          i.sourceValue = (rlookup s.entries i.key).map (fun e => e.value) ∧
          i.targetValue = (rlookup t.entries i.key).map (fun e => e.value) ∧
          ∃ sv tv, i.sourceValue = some sv ∧ i.targetValue = some tv ∧
            phMismatch sv tv = true)
    ∧ (∀ sv tv, phMismatch sv tv = false ↔
        ((extractPlaceholders sv).length =
            (extractPlaceholders tv).length ∧
          ∀ p ∈ extractPlaceholders sv, p ∈ extractPlaceholders tv))
    ∧ (∀ sv tv,
        (extractPlaceholders tv).Perm (extractPlaceholders sv) →
          phMismatch sv tv = false)
    ∧ (∀ sv tv, extractPlaceholders sv = [] → extractPlaceholders tv = [] →
        phMismatch sv tv = false) := by
  have hiff : ∀ sv tv, phMismatch sv tv = false ↔
      ((extractPlaceholders sv).length = (extractPlaceholders tv).length ∧
        ∀ p ∈ extractPlaceholders sv, p ∈ extractPlaceholders tv) := by
    intro sv tv
    simp [phMismatch, List.all_eq_true]
  refine ⟨checkPlaceholders_keys s t, ?_, ?_, hiff, ?_, ?_⟩
  · rw [checkPlaceholders_keys s t]
    have hsub : ((s.entries.filter (fun p =>
        ((rlookup t.entries p.1).map
          (fun te => phMismatch p.2.value te.value)).getD false)).map
          Prod.fst).Sublist (s.entries.map Prod.fst) :=
      (List.filter_sublist _).map Prod.fst
    exact hs.sublist hsub
  · intro i hi
    obtain ⟨h1, h2, se, te, hmse, hrte, hmm, hsv, htv⟩ :=
      mem_checkPlaceholders s t i hi
    refine ⟨h1, h2, ?_, ?_, se.value, te.value, hsv, htv, hmm⟩
    · rw [rlookup_of_mem_nodup hs hmse, hsv]
      rfl
    · rw [hrte, htv]
      rfl
  · intro sv tv hperm
    rw [hiff]
    exact ⟨hperm.length_eq.symm, fun p hp => hperm.mem_iff.mpr hp⟩
  · intro sv tv h1 h2
    rw [hiff, h1, h2]
    simp

/-- Concrete documents for the C4 witness: key `msg` mismatches, key `ok`
agrees, key `swap` differs only in placeholder order. -/
def c4src : LocaleFile :=
  { locale := "en", path := "en.json", format := LFormat.json,
    entries := [("msg", { key := "msg", value := "Hi {user}" }),
                ("ok", { key := "ok", value := "fine" }),
                ("swap", { key := "swap", value := "{a} {b}" })],
    raw := [] }

def c4tgt : LocaleFile :=
  { locale := "es", path := "es.json", format := LFormat.json,
    entries := [("msg", { key := "msg", value := "Hola {usuario}" }),
                ("ok", { key := "ok", value := "bien" }),
                ("swap", { key := "swap", value := "{b} {a}" })],
    raw := [] }

/-- Witness for C4 at a concrete pair of documents. -/
theorem spec_C4_placeholder_mismatch_witness :
    ((rkeys c4src.entries).Nodup ∧ (rkeys c4tgt.entries).Nodup) ∧
    (((checkPlaceholders c4src c4tgt).map (fun i => i.key) =
        (c4src.entries.filter (fun p =>
          ((rlookup c4tgt.entries p.1).map
            (fun te => phMismatch p.2.value te.value)).getD false)).map
          Prod.fst)
    ∧ (((checkPlaceholders c4src c4tgt).map (fun i => i.key)).Nodup)
    ∧ (∀ i ∈ checkPlaceholders c4src c4tgt,
        i.type = IssueType.placeholderMismatch ∧
          i.severity = Severity.error ∧
          i.sourceValue =
            (rlookup c4src.entries i.key).map (fun e => e.value) ∧
          i.targetValue =
            (rlookup c4tgt.entries i.key).map (fun e => e.value) ∧
          ∃ sv tv, i.sourceValue = some sv ∧ i.targetValue = some tv ∧
            phMismatch sv tv = true)
    ∧ (∀ sv tv, phMismatch sv tv = false ↔
        ((extractPlaceholders sv).length =
            (extractPlaceholders tv).length ∧
          ∀ p ∈ extractPlaceholders sv, p ∈ extractPlaceholders tv))
    ∧ (∀ sv tv,
        (extractPlaceholders tv).Perm (extractPlaceholders sv) →
          phMismatch sv tv = false)
    ∧ (∀ sv tv, extractPlaceholders sv = [] → extractPlaceholders tv = [] →
        phMismatch sv tv = false)) :=
  ⟨⟨by decide, by decide⟩,
    spec_C4_placeholder_mismatch c4src c4tgt (by decide) (by decide)⟩

/-- Position of each issue kind in the fixed pass order of
`validateTarget`. -/
def passIdx : IssueType → Nat
  | IssueType.missing => 0
  | IssueType.extra => 1
  | IssueType.duplicate => 2
  | IssueType.placeholderMismatch => 3
  | IssueType.icuError => 4
  | IssueType.formatting => 5

theorem pairwise_le_const {l : List Nat} {c : Nat} (h : ∀ x ∈ l, x = c) :
    l.Pairwise (· ≤ ·) := by
  induction l with
  | nil => simp
  | cons a as ih =>
    refine List.Pairwise.cons ?_ (ih fun x hx => h x (List.mem_cons_of_mem _ hx))
    intro b hb
    rw [h a (List.mem_cons_self _ _), h b (List.mem_cons_of_mem _ hb)]

theorem pairwise_le_const_append {l1 l2 : List Nat} {c1 : Nat}
    (h1 : ∀ x ∈ l1, x = c1) (h2 : l2.Pairwise (· ≤ ·))
    (hge : ∀ x ∈ l2, c1 ≤ x) : (l1 ++ l2).Pairwise (· ≤ ·) := by
  rw [List.pairwise_append]
  refine ⟨pairwise_le_const h1, h2, ?_⟩
  intro a ha b hb
  rw [h1 a ha]
  exact hge b hb

/-- C9: validation is deterministic (equal inputs give equal issue lists),
and within one run the issues appear grouped in the fixed pass order
missing, extra, duplicate, placeholder, structured-message, formatting. -/
theorem spec_C9_determinism_pass_order (icu : ICUModel)
    (s t s2 t2 : LocaleFile) (hs : s = s2) (ht : t = t2) :
    validateTarget icu s t = validateTarget icu s2 t2 ∧
      ((validateTarget icu s t).map (fun i => passIdx i.type)).Pairwise
        (· ≤ ·) := by
  subst hs
  subst ht
  refine ⟨rfl, ?_⟩
  have hm : ∀ x ∈ (checkMissingKeys s t).map (fun i => passIdx i.type),
      x = 0 := by
    intro x hx
    rw [List.mem_map] at hx
    obtain ⟨i, hi, rfl⟩ := hx
    rw [(mem_checkMissing s t i hi).1]
    rfl
  have he : ∀ x ∈ (checkExtraKeys s t).map (fun i => passIdx i.type),
      x = 1 := by
    intro x hx
    rw [List.mem_map] at hx
    obtain ⟨i, hi, rfl⟩ := hx
    rw [(mem_checkExtra s t i hi).1]
    rfl
  have hd : ∀ x ∈ (checkDuplicates t).map (fun i => passIdx i.type),
      x = 2 := by
    intro x hx
    rw [List.mem_map] at hx
    obtain ⟨i, hi, rfl⟩ := hx
    rw [mem_checkDuplicates_type t i hi]
    rfl
  have hp : ∀ x ∈ (checkPlaceholders s t).map (fun i => passIdx i.type),
      x = 3 := by
    intro x hx
    rw [List.mem_map] at hx
    obtain ⟨i, hi, rfl⟩ := hx
    rw [(mem_checkPlaceholders s t i hi).1]
    rfl
  have hic : ∀ x ∈ (checkICUMessages icu s t).map (fun i => passIdx i.type),
      x = 4 := by
    intro x hx
    rw [List.mem_map] at hx
    obtain ⟨i, hi, rfl⟩ := hx
    rw [mem_checkICU_type icu s t i hi]
    rfl
  have hf : ∀ x ∈ (checkFormatting t).map (fun i => passIdx i.type),
      x = 5 := by
    intro x hx
    rw [List.mem_map] at hx
    obtain ⟨i, hi, rfl⟩ := hx
    rw [mem_checkFormatting_type t i hi]
    rfl
  rw [validateTarget]
  simp only [List.map_append, List.append_assoc]
  refine pairwise_le_const_append hm ?_ ?_
  · refine pairwise_le_const_append he ?_ ?_
    · refine pairwise_le_const_append hd ?_ ?_
      · refine pairwise_le_const_append hp ?_ ?_
        · refine pairwise_le_const_append hic (pairwise_le_const hf) ?_
          intro x hx
          rw [hf x hx]
          omega
        · intro x hx
          rcases List.mem_append.mp hx with h | h
          · rw [hic x h]
            omega
          · rw [hf x h]
            omega
      · intro x hx
        rcases List.mem_append.mp hx with h | h
        · rw [hp x h]
          omega
        · rcases List.mem_append.mp h with h2 | h2
          · rw [hic x h2]
            omega
          · rw [hf x h2]
            omega
    · intro x hx
      rcases List.mem_append.mp hx with h | h
      · rw [hd x h]
        omega
      · rcases List.mem_append.mp h with h2 | h2
        · rw [hp x h2]
          omega
        · rcases List.mem_append.mp h2 with h3 | h3
          · rw [hic x h3]
            omega
          · rw [hf x h3]
            omega
  · intro x hx
    rcases List.mem_append.mp hx with h | h
    · rw [he x h]
      omega
    · rcases List.mem_append.mp h with h2 | h2
      · rw [hd x h2]
        omega
      · rcases List.mem_append.mp h2 with h3 | h3
        · rw [hp x h3]
          omega
        · rcases List.mem_append.mp h3 with h4 | h4
          · rw [hic x h4]
            omega
          · rw [hf x h4]
            omega

/-- Concrete documents for the C9 witness. -/
def c9src : LocaleFile :=
  { locale := "en", path := "en.json", format := LFormat.json,
    entries := [("a", { key := "a", value := "x" }),
                ("b", { key := "b", value := "y" })],
    raw := [] }

def c9tgt : LocaleFile :=
  { locale := "es", path := "es.json", format := LFormat.json,
    entries := [("b", { key := "b", value := " z " }),
                ("c", { key := "c", value := " z " })],
    raw := [] }

/-- Witness for C9 at a concrete source/target pair exercising several
passes. -/
theorem spec_C9_determinism_pass_order_witness :
    (c9src = c9src ∧ c9tgt = c9tgt) ∧
    (validateTarget noICU c9src c9tgt = validateTarget noICU c9src c9tgt ∧
      ((validateTarget noICU c9src c9tgt).map (fun i => passIdx i.type)).Pairwise
        (· ≤ ·)) :=
  ⟨⟨rfl, rfl⟩,
    spec_C9_determinism_pass_order noICU c9src c9tgt c9src c9tgt rfl rfl⟩

theorem rkeys_map_update (l : Rec LocaleEntry) (key : String)
    (f : LocaleEntry → LocaleEntry) :
    rkeys (l.map (fun p => if p.1 = key then (p.1, f p.2) else p)) =
      rkeys l := by
  induction l with
  | nil => rfl
  | cons p rest ih =>
    by_cases h : p.1 = key <;> simp [rkeys, h] <;>
      simpa [rkeys] using ih

theorem rlookup_map_update (l : Rec LocaleEntry) (key k : String)
    (f : LocaleEntry → LocaleEntry) :
    rlookup (l.map (fun p => if p.1 = key then (p.1, f p.2) else p)) k =
      if k = key then (rlookup l k).map f else rlookup l k := by
  induction l with
  | nil => by_cases h : k = key <;> simp [rlookup, h]
  | cons p rest ih =>
    obtain ⟨pk, pv⟩ := p
    simp only [List.map_cons]
    by_cases hpk : pk = key
    · subst hpk
      rw [if_pos rfl]
      by_cases hk : pk = k
      · subst hk
        simp [rlookup]
      · have hk2 : ¬ k = pk := fun h => hk h.symm
        simp [rlookup, hk, hk2, ih]
    · rw [if_neg hpk]
      by_cases hk : pk = k
      · subst hk
        have hk2 : ¬ pk = key := hpk
        simp [rlookup, hk2]
      · simp [rlookup, hk, ih]

/-- C10 (amended): for the value-replacing fix kinds, an absent `newValue`,
an empty `newValue` (falsy in JS), or an absent entry leaves the document
entirely unchanged (no entry is ever created); otherwise only the named
entry's value is replaced, with every other entry, the key order, the raw
data and the remaining document fields untouched. -/
theorem spec_C10_value_fix_application (src : LocaleFile) (fix : Fix')
    (tf : LocaleFile)
    (hk : fix.type = FixType.fixPlaceholder ∨
      fix.type = FixType.fixFormatting ∨ fix.type = FixType.fixICU) :
    ((fix.newValue = none ∨ fix.newValue = some "" ∨
        rlookup tf.entries fix.key = none) → applyFix src fix tf = tf)
    ∧ (∀ nv, fix.newValue = some nv → nv.isEmpty = false →
        (rlookup tf.entries fix.key).isSome = true →
        (applyFix src fix tf).raw = tf.raw
      ∧ (applyFix src fix tf).locale = tf.locale
      ∧ (applyFix src fix tf).path = tf.path
      ∧ (applyFix src fix tf).format = tf.format
      ∧ rkeys (applyFix src fix tf).entries = rkeys tf.entries
      ∧ rlookup (applyFix src fix tf).entries fix.key =
          (rlookup tf.entries fix.key).map (fun e => { e with value := nv })
      ∧ ∀ k, k ≠ fix.key →
          rlookup (applyFix src fix tf).entries k = rlookup tf.entries k) := by
  obtain ⟨ty, loc, key, ov, nvv, desc⟩ := fix
  have happN : nvv = none →
      ∀ h : LocaleFile, applyFix src ⟨ty, loc, key, ov, nvv, desc⟩ h = h := by
    intro he h
    rcases hk with hty | hty | hty <;> cases hty <;> (cases he; rfl)
  have happS : ∀ nv, nvv = some nv →
      ∀ h : LocaleFile, applyFix src ⟨ty, loc, key, ov, nvv, desc⟩ h =
        (if ¬ nv.isEmpty ∧ (rlookup h.entries key).isSome then
          { h with entries := h.entries.map (fun p =>
              if p.1 = key then (p.1, { p.2 with value := nv }) else p) }
         else h) := by
    intro nv he h
    rcases hk with hty | hty | hty <;> cases hty <;> (cases he; rfl)
  constructor
  · intro hcase
    rcases hcase with hnv | hnv | hnv
    · exact happN hnv tf
    · simp only at hnv
      rw [happS "" hnv tf]
      have hemp : ("" : String).isEmpty = true := rfl
      simp [hemp]
    · simp only at hnv
      cases hnvv : nvv with
      | none =>
        rw [← hnvv]
        exact happN hnvv tf
      | some nv =>
        rw [← hnvv, happS nv hnvv tf, if_neg]
        intro hcond
        rw [hnv] at hcond
        simp at hcond
  · intro nv hnv hne hsome
    simp only at hnv
    subst hnv
    rw [happS nv rfl tf]
    simp only at hsome
    have hcond : ¬ nv.isEmpty = true ∧
        (rlookup tf.entries key).isSome = true := by
      rw [hne]
      simp [hsome]
    rw [if_pos hcond]
    refine ⟨rfl, rfl, rfl, rfl, ?_, ?_, ?_⟩
    · exact rkeys_map_update tf.entries key (fun e => { e with value := nv })
    · simpa using
        rlookup_map_update tf.entries key key (fun e => { e with value := nv })
    · intro k hkk
      simp only at hkk
      simpa [hkk] using
        rlookup_map_update tf.entries key k (fun e => { e with value := nv })

/-- Concrete inputs for the C10 witness and counterexample. -/
def c10src : LocaleFile :=
  { locale := "en", path := "en.json", format := LFormat.json,
    entries := [("a", { key := "a", value := "x" })], raw := [] }

def c10doc : LocaleFile :=
  { locale := "es", path := "es.json", format := LFormat.json,
    entries := [("a", { key := "a", value := "   " }),
                ("b", { key := "b", value := "keep" })],
    raw := [] }

def c10fixOk : Fix' :=
  { type := FixType.fixFormatting, locale := "es", key := "a",
    oldValue := some "   ", newValue := some "ok",
    description := "Fix formatting issues in \"a\"" }

def c10fixEmpty : Fix' :=
  { type := FixType.fixFormatting, locale := "es", key := "a",
    oldValue := some "   ", newValue := some "",
    description := "Fix formatting issues in \"a\"" }

/-- Witness for C10 at a concrete fix and document. -/
theorem spec_C10_value_fix_application_witness :
    (c10fixOk.type = FixType.fixPlaceholder ∨
      c10fixOk.type = FixType.fixFormatting ∨
      c10fixOk.type = FixType.fixICU) ∧
    (((c10fixOk.newValue = none ∨ c10fixOk.newValue = some "" ∨
        rlookup c10doc.entries c10fixOk.key = none) →
        applyFix c10src c10fixOk c10doc = c10doc)
    ∧ (∀ nv, c10fixOk.newValue = some nv → nv.isEmpty = false →
        (rlookup c10doc.entries c10fixOk.key).isSome = true →
        (applyFix c10src c10fixOk c10doc).raw = c10doc.raw
      ∧ (applyFix c10src c10fixOk c10doc).locale = c10doc.locale
      ∧ (applyFix c10src c10fixOk c10doc).path = c10doc.path
      ∧ (applyFix c10src c10fixOk c10doc).format = c10doc.format
      ∧ rkeys (applyFix c10src c10fixOk c10doc).entries =
          rkeys c10doc.entries
      ∧ rlookup (applyFix c10src c10fixOk c10doc).entries c10fixOk.key =
          (rlookup c10doc.entries c10fixOk.key).map
            (fun e => { e with value := nv })
      ∧ ∀ k, k ≠ c10fixOk.key →
          rlookup (applyFix c10src c10fixOk c10doc).entries k =
            rlookup c10doc.entries k)) :=
  ⟨Or.inr (Or.inl rfl),
    spec_C10_value_fix_application c10src c10fixOk c10doc
      (Or.inr (Or.inl rfl))⟩

/-- Counterexample for C10 as stated: the fix `c10fixEmpty` carries a
`newValue` (the empty string) and the document has an entry under its key,
so the claim requires the entry's value to become `""`; the code's falsy
guard leaves the document unchanged instead. -/
theorem spec_C10_counterexample :
    applyFix c10src c10fixEmpty c10doc = c10doc ∧
      (rlookup (applyFix c10src c10fixEmpty c10doc).entries "a").map
        (fun e => e.value) = some "   " ∧
      ¬ ((rlookup (applyFix c10src c10fixEmpty c10doc).entries "a").map
          (fun e => e.value) = some "") := by
  refine ⟨rfl, rfl, ?_⟩
  intro h
  have : ("   " : String) = "" := by
    have h2 : (some "   " : Option String) = some "" := by
      rw [show (some "   " : Option String) =
        (rlookup (applyFix c10src c10fixEmpty c10doc).entries "a").map
          (fun e => e.value) from rfl, h]
    exact Option.some.inj h2
  exact absurd this (by decide)

/-- Output shape of the add-missing template: brace characters interleaved
with maximal literal `TODO` runs (a `TODO` run must be followed by a brace
or the end, which makes the runs maximal). -/
def todoShaped : List Char → Bool
  | [] => true
  | '{' :: r => todoShaped r
  | '}' :: r => todoShaped r
  | 'T' :: 'O' :: 'D' :: 'O' :: r =>
    (match r with
     | [] => true
     | c :: _ => isBraceC c) && todoShaped r
  | _ => false

theorem maskGo_filter_braces (l : List Char) :
    ∀ b, (maskGo b l).filter isBraceC = l.filter isBraceC := by
  induction l with
  | nil => intro b; rfl
  | cons c rest ih =>
    intro b
    by_cases hc : isBraceC c
    · cases b <;> simp [maskGo, hc, ih]
    · have hT : isBraceC 'T' = false := rfl
      have hO : isBraceC 'O' = false := rfl
      have hD : isBraceC 'D' = false := rfl
      cases b <;>
        simp [maskGo, hc, hT, hO, hD, ih]

theorem maskGo_true_head (l : List Char) :
    maskGo true l = [] ∨
      ∃ c r2, maskGo true l = c :: r2 ∧ isBraceC c = true := by
  induction l with
  | nil => exact Or.inl rfl
  | cons c rest ih =>
    by_cases hc : isBraceC c
    · exact Or.inr ⟨c, maskGo false rest, by simp [maskGo, hc], hc⟩
    · rw [show maskGo true (c :: rest) = maskGo true rest from by
        simp [maskGo, hc]]
      exact ih

theorem todoShaped_brace_cons {c : Char} (r : List Char)
    (hc : isBraceC c = true) : todoShaped (c :: r) = todoShaped r := by
  have : c = '{' ∨ c = '}' := by
    simpa [isBraceC] using hc
  rcases this with rfl | rfl <;> rfl

theorem maskGo_shaped (l : List Char) :
    todoShaped (maskGo false l) = true ∧
      todoShaped (maskGo true l) = true := by
  induction l with
  | nil => exact ⟨rfl, rfl⟩
  | cons c rest ih =>
    by_cases hc : isBraceC c
    · have hstep : ∀ b, maskGo b (c :: rest) = c :: maskGo false rest := by
        intro b
        cases b <;> simp [maskGo, hc]
      constructor <;>
        (rw [hstep, todoShaped_brace_cons _ hc]; exact ih.1)
    · have hstepT : maskGo true (c :: rest) = maskGo true rest := by
        simp [maskGo, hc]
      have hstepF : maskGo false (c :: rest) =
          'T' :: 'O' :: 'D' :: 'O' :: maskGo true rest := by
        simp [maskGo, hc]
      refine ⟨?_, by rw [hstepT]; exact ih.2⟩
      rw [hstepF]
      rw [show todoShaped ('T' :: 'O' :: 'D' :: 'O' :: maskGo true rest) =
        ((match maskGo true rest with
          | [] => true
          | c :: _ => isBraceC c) && todoShaped (maskGo true rest)) from rfl]
      rcases maskGo_true_head rest with h | ⟨c2, r2, heq, hb⟩
      · rw [h]
        rfl
      · rw [heq]
        simp [hb]
        have h2 := ih.2
        rw [heq] at h2
        exact h2

/-- C1 (amended): for every missing issue whose key has a source entry, the
generated fix is an `addMissing` fix for that key whose `newValue` is
exactly `TODO` when the source value has no brace-delimited placeholder, and
otherwise is the source value with every maximal run of non-brace characters
— including the placeholder names between the braces — replaced by the
literal `TODO`: the brace characters of the source value are preserved in
order and everything else in the template is maximal `TODO` runs. -/
theorem spec_C1_missing_fix_template (src : LocaleFile)
    (issue : ValidationIssue) (e : LocaleEntry)
    (he : rlookup src.entries issue.key = some e) :
    (generateMissingKeyFix src issue).isSome = true
    ∧ (∀ fix, generateMissingKeyFix src issue = some fix →
        fix.type = FixType.addMissing ∧ fix.key = issue.key ∧
        fix.locale = issue.locale ∧
        fix.newValue = some
          (if (extractPlaceholders e.value).isEmpty then "TODO"
           else String.mk (maskNonBrace e.value.data)))
    ∧ ((maskNonBrace e.value.data).filter isBraceC =
        e.value.data.filter isBraceC)
    ∧ todoShaped (maskNonBrace e.value.data) = true := by
  refine ⟨?_, ?_, maskGo_filter_braces e.value.data false,
    (maskGo_shaped e.value.data).1⟩
  · rw [generateMissingKeyFix, he]
    rfl
  · intro fix hf
    rw [generateMissingKeyFix, he] at hf
    simp only [Option.map_some', Option.some.injEq] at hf
    subst hf
    refine ⟨rfl, rfl, rfl, ?_⟩
    by_cases h : (extractPlaceholders e.value).isEmpty
    · have hlen : ¬ (extractPlaceholders e.value).length > 0 := by
        rw [List.isEmpty_iff] at h
        simp [h]
      simp [h, hlen]
    · have hlen : (extractPlaceholders e.value).length > 0 := by
        rcases List.isEmpty_iff.not.mp h with _
        cases hx : extractPlaceholders e.value with
        | nil => exact absurd (by simp [hx]) h
        | cons a as => simp [hx]
      simp [h, hlen]

/-- Concrete inputs for the C1 witness. -/
def c1src : LocaleFile :=
  { locale := "en", path := "en.json", format := LFormat.json,
    entries := [("greeting", { key := "greeting", value := "Hi {user}" }),
                ("plain", { key := "plain", value := "Hello" })],
    raw := [] }

def c1issue : ValidationIssue :=
  { type := IssueType.missing, locale := "es", key := "greeting",
    message := "Key \"greeting\" is missing", severity := Severity.error,
    sourceValue := some "Hi {user}" }

def c1entry : LocaleEntry := { key := "greeting", value := "Hi {user}" }

/-- Witness for C1 at a concrete source document and missing issue. -/
theorem spec_C1_missing_fix_template_witness :
    rlookup c1src.entries c1issue.key = some c1entry ∧
    ((generateMissingKeyFix c1src c1issue).isSome = true
    ∧ (∀ fix, generateMissingKeyFix c1src c1issue = some fix →
        fix.type = FixType.addMissing ∧ fix.key = c1issue.key ∧
        fix.locale = c1issue.locale ∧
        fix.newValue = some
          (if (extractPlaceholders c1entry.value).isEmpty then "TODO"
           else String.mk (maskNonBrace c1entry.value.data)))
    ∧ ((maskNonBrace c1entry.value.data).filter isBraceC =
        c1entry.value.data.filter isBraceC)
    ∧ todoShaped (maskNonBrace c1entry.value.data) = true) :=
  ⟨rfl, spec_C1_missing_fix_template c1src c1issue c1entry rfl⟩

/-- The template the claim describes, modeled from its words: every
brace-delimited `{name}` token of the value is kept intact, every maximal
run of the remaining characters becomes the literal `TODO`, and a value
with no placeholder becomes exactly `TODO`.  Structural on a fuel argument
(`length + 1` suffices: every step consumes at least one character). -/
def phTokenAt : List Char → Option (List Char × List Char)
  | '{' :: rest =>
    let name := rest.takeWhile (fun d => d ≠ '}')
    if name.isEmpty then none
    else
      match rest.dropWhile (fun d => d ≠ '}') with
      | _ :: tail => some (name, tail)
      | [] => none
  | _ => none

def specTemplateF : Nat → Bool → List Char → List Char
  | 0, _, l => l
  | _ + 1, _, [] => []
  | f + 1, inRun, c :: rest =>
    match phTokenAt (c :: rest) with
    | some (name, tail) => '{' :: (name ++ '}' :: specTemplateF f false tail)
    | none =>
      if inRun then specTemplateF f true rest
      else 'T' :: 'O' :: 'D' :: 'O' :: specTemplateF f true rest

def specMissingTemplate (v : String) : String :=
  if (extractPlaceholders v).isEmpty then "TODO"
  else String.mk (specTemplateF (v.data.length + 1) false v.data)

/-- Counterexample for C1 as stated: for the source value `Hi {user}` the
claim's template keeps the placeholder name (`TODO{user}`); the code's
regex `[^{}]+` also matches the name between the braces and replaces it,
producing `TODO{TODO}`. -/
theorem spec_C1_counterexample :
    (generateMissingKeyFix c1src c1issue).map (fun f => f.newValue) =
      some (some "TODO{TODO}")
    ∧ specMissingTemplate "Hi {user}" = "TODO{user}"
    ∧ ¬ ((generateMissingKeyFix c1src c1issue).map (fun f => f.newValue) =
        some (some (specMissingTemplate "Hi {user}"))) :=
  ⟨by decide, by decide, by decide⟩

/-- The rename pairs (target name → source name) collected from the
index-aligned placeholder pairs, in index order. -/
def mismRenames (pairs : List (String × String)) : Rec String :=
  (pairs.filter (fun q => ¬ q.1 = q.2)).map (fun q => (q.2, q.1))

theorem buildPhMap_eq_fold (pairs : List (String × String)) :
    buildPhMap pairs =
      (mismRenames pairs).foldl (fun m q => rset m q.1 q.2) [] := by
  rw [buildPhMap, mismRenames]
  generalize ([] : Rec String) = acc
  induction pairs generalizing acc with
  | nil => rfl
  | cons q rest ih =>
    by_cases h : q.1 = q.2
    · rw [List.foldl_cons, if_neg (by simp [h])]
      rw [show List.filter (fun q => decide ¬ q.1 = q.2) (q :: rest) =
          List.filter (fun q => decide ¬ q.1 = q.2) rest from by
        simp [h]]
      exact ih acc
    · rw [List.foldl_cons, if_pos h]
      rw [show List.filter (fun q => decide ¬ q.1 = q.2) (q :: rest) =
          q :: List.filter (fun q => decide ¬ q.1 = q.2) rest from by
        simp [h]]
      rw [List.map_cons, List.foldl_cons]
      exact ih (rset acc q.2 q.1)

theorem rlookup_foldl_rset {α : Type} (ps : Rec α) (acc : Rec α) (k : String) :
    rlookup (ps.foldl (fun m q => rset m q.1 q.2) acc) k =
      (rlookup ps.reverse k).or (rlookup acc k) := by
  induction ps generalizing acc with
  | nil => simp [rlookup]
  | cons q rest ih =>
    rw [List.foldl_cons, ih]
    rw [show (q :: rest).reverse = rest.reverse ++ [q] from by simp]
    rw [rlookup_append, rlookup_rset]
    cases hres : rlookup rest.reverse k with
    | some v => simp [Option.or]
    | none =>
      simp only [Option.or]
      by_cases hq : q.1 = k
      · simp [rlookup, hq]
      · simp [rlookup, hq]

/-- First-occurrence filtering of a key list against already-seen keys
(the key order of a JS `Map` built by repeated `set`). -/
def firstOccAux (seen : List String) : List String → List String
  | [] => []
  | k :: rest =>
    if seen.contains k then firstOccAux seen rest
    else k :: firstOccAux (seen ++ [k]) rest

theorem rkeys_foldl_rset (ps : Rec String) (acc : Rec String) :
    rkeys (ps.foldl (fun m q => rset m q.1 q.2) acc) =
      rkeys acc ++ firstOccAux (rkeys acc) (rkeys ps) := by
  induction ps generalizing acc with
  | nil => simp [rkeys, firstOccAux]
  | cons q rest ih =>
    rw [List.foldl_cons, ih]
    rw [show rkeys (q :: rest) = q.1 :: rkeys rest from rfl]
    rw [rkeys_rset]
    by_cases hc : (rkeys acc).contains q.1
    · rw [if_pos hc]
      rw [show firstOccAux (rkeys acc) (q.1 :: rkeys rest) =
        firstOccAux (rkeys acc) (rkeys rest) from by
          rw [firstOccAux]
          rw [if_pos hc]]
    · rw [if_neg hc]
      rw [show firstOccAux (rkeys acc) (q.1 :: rkeys rest) =
        q.1 :: firstOccAux (rkeys acc ++ [q.1]) (rkeys rest) from by
          rw [firstOccAux]
          rw [if_neg hc]]
      rw [show rkeys acc ++ q.1 :: firstOccAux (rkeys acc ++ [q.1])
          (rkeys rest) =
        (rkeys acc ++ [q.1]) ++ firstOccAux (rkeys acc ++ [q.1]) (rkeys rest)
        from by simp]

/-- Scenario C issue (spec §8): source `Hi {user}`, target `Hola {usuario}`. -/
def c5scIssue : ValidationIssue :=
  { type := IssueType.placeholderMismatch, locale := "es", key := "msg",
    message := "Placeholder mismatch: expected [user], found [usuario]",
    severity := Severity.error, sourceValue := some "Hi {user}",
    targetValue := some "Hola {usuario}" }

theorem fold_replacePh_plain (R : JSRegExp) (m : Rec String) (tv : String)
    (hplain : ∀ q ∈ m, regexPlain q.1 = true ∧ replPlain q.2 = true) :
    m.foldl (fun acc q => acc.bind (fun a => R.replacePh q.1 q.2 a))
        (some tv) =
      some (m.foldl (fun acc q =>
        strReplaceAll acc (lbr ++ q.1 ++ rbr) (lbr ++ q.2 ++ rbr)) tv) := by
  induction m generalizing tv with
  | nil => rfl
  | cons q rest ih =>
    rw [List.foldl_cons, List.foldl_cons]
    have hq := hplain q (List.mem_cons_self q rest)
    rw [show (some tv).bind (fun a => R.replacePh q.1 q.2 a) =
        R.replacePh q.1 q.2 tv from rfl,
      R.law q.1 q.2 tv hq.1 hq.2]
    exact ih _ (fun p hp => hplain p (List.mem_cons_of_mem q hp))

theorem generatePlaceholderFix_eq (R : JSRegExp) (issue : ValidationIssue)
    (sv tv : String)
    (hs : issue.sourceValue = some sv) (ht : issue.targetValue = some tv)
    (hsne : sv.isEmpty = false) (htne : tv.isEmpty = false) :
    generatePlaceholderFix R issue =
      ((buildPhMap ((extractPlaceholders sv).zip
          (extractPlaceholders tv))).foldl
        (fun acc q => acc.bind (fun a => R.replacePh q.1 q.2 a))
        (some tv)).map (fun fixedValue =>
        { type := FixType.fixPlaceholder, locale := issue.locale,
          key := issue.key, oldValue := some tv,
          newValue := some fixedValue,
          description := "Fix placeholder names to match source" }) := by
  obtain ⟨ity, iloc, ikey, imsg, isev, isv, itv, isug⟩ := issue
  simp only at hs ht
  subst hs
  subst ht
  rw [show generatePlaceholderFix R
      ⟨ity, iloc, ikey, imsg, isev, some sv, some tv, isug⟩ =
    (if (sv.isEmpty || tv.isEmpty) = true then
      some
        { type := FixType.fixPlaceholder, locale := iloc, key := ikey,
          description :=
            "Cannot fix placeholder without source/target values" }
     else
      ((buildPhMap ((extractPlaceholders sv).zip
          (extractPlaceholders tv))).foldl
        (fun acc q => acc.bind (fun a => R.replacePh q.1 q.2 a))
        (some tv)).map (fun fixedValue =>
        { type := FixType.fixPlaceholder, locale := iloc, key := ikey,
          oldValue := some tv, newValue := some fixedValue,
          description := "Fix placeholder names to match source" }))
    from rfl]
  rw [if_neg (by simp [hsne, htne])]

/-- C5 (amended): the source builds a regular expression from each raw
target placeholder name, so the rename behaviour is determined only where
the name is plain pattern text.  For every lawful regex engine `R` and every
placeholderMismatch issue carrying nonempty source and target values whose
collected rename map holds only plain names (and `$`-free replacements),
the fix is a `fixPlaceholder` fix whose `newValue` is the target value
transformed by applying, for each entry of the rename map in map order, a
global replacement of the token `{old}` by `{new}` (so one rename can
affect the text produced by an earlier one); the rename map collects
target-name → source-name pairs from the mismatching indices up to the
shorter placeholder list, keyed by target name in first-occurrence order
with a later index overriding the recorded source name; when no aligned
index mismatches, the target value is returned unchanged, and in Scenario C
the fixed target is `Hola {user}`. -/
theorem spec_C5_placeholder_fix (R : JSRegExp) (issue : ValidationIssue)
    (sv tv : String)
    (hs : issue.sourceValue = some sv) (ht : issue.targetValue = some tv)
    (hsne : sv.isEmpty = false) (htne : tv.isEmpty = false)
    (hplain : ∀ q ∈ buildPhMap ((extractPlaceholders sv).zip
        (extractPlaceholders tv)),
      regexPlain q.1 = true ∧ replPlain q.2 = true) :
    (generatePlaceholderFix R issue = some
      { type := FixType.fixPlaceholder, locale := issue.locale,
        key := issue.key, oldValue := some tv,
        newValue := some
          ((buildPhMap ((extractPlaceholders sv).zip
              (extractPlaceholders tv))).foldl
            (fun acc q =>
              strReplaceAll acc (lbr ++ q.1 ++ rbr) (lbr ++ q.2 ++ rbr)) tv),
        description := "Fix placeholder names to match source" })
    ∧ (∀ k, rlookup (buildPhMap ((extractPlaceholders sv).zip
          (extractPlaceholders tv))) k =
        rlookup (mismRenames ((extractPlaceholders sv).zip
          (extractPlaceholders tv))).reverse k)
    ∧ (rkeys (buildPhMap ((extractPlaceholders sv).zip
          (extractPlaceholders tv))) =
        firstOccAux [] (rkeys (mismRenames ((extractPlaceholders sv).zip
          (extractPlaceholders tv)))))
    ∧ (((extractPlaceholders sv).zip
          (extractPlaceholders tv)).all (fun q => q.1 = q.2) →
        generatePlaceholderFix R issue = some
          { type := FixType.fixPlaceholder, locale := issue.locale,
            key := issue.key, oldValue := some tv, newValue := some tv,
            description := "Fix placeholder names to match source" })
    ∧ ((generatePlaceholderFix jsRegExpLit c5scIssue).map
        (fun f => f.newValue) = some (some "Hola {user}")) := by
  have hmain : generatePlaceholderFix R issue = some
      { type := FixType.fixPlaceholder, locale := issue.locale,
        key := issue.key, oldValue := some tv,
        newValue := some
          ((buildPhMap ((extractPlaceholders sv).zip
              (extractPlaceholders tv))).foldl
            (fun acc q =>
              strReplaceAll acc (lbr ++ q.1 ++ rbr) (lbr ++ q.2 ++ rbr)) tv),
        description := "Fix placeholder names to match source" } := by
    rw [generatePlaceholderFix_eq R issue sv tv hs ht hsne htne,
      fold_replacePh_plain R _ tv hplain]
    rfl
  refine ⟨hmain, ?_, ?_, ?_, by decide⟩
  · intro k
    rw [buildPhMap_eq_fold, rlookup_foldl_rset]
    simp [rlookup]
  · rw [buildPhMap_eq_fold, rkeys_foldl_rset]
    rfl
  · intro hall
    have hnil : buildPhMap ((extractPlaceholders sv).zip
        (extractPlaceholders tv)) = [] := by
      rw [buildPhMap_eq_fold]
      rw [show mismRenames ((extractPlaceholders sv).zip
          (extractPlaceholders tv)) = [] from by
        rw [mismRenames]
        rw [List.all_eq_true] at hall
        rw [show List.filter (fun q => decide ¬ q.1 = q.2)
            ((extractPlaceholders sv).zip (extractPlaceholders tv)) = []
          from by
          rw [List.filter_eq_nil_iff]
          intro q hq
          simpa using hall q hq]
        rfl]
      rfl
    rw [hmain, hnil]
    rfl

/-- Concrete inputs for the C5 witness (Scenario C, run under the literal
engine instance; the plain-name hypothesis is what makes its `law`
applicable). -/
theorem spec_C5_placeholder_fix_witness :
    (c5scIssue.sourceValue = some "Hi {user}" ∧
      c5scIssue.targetValue = some "Hola {usuario}" ∧
      ("Hi {user}" : String).isEmpty = false ∧
      ("Hola {usuario}" : String).isEmpty = false ∧
      (∀ q ∈ buildPhMap ((extractPlaceholders "Hi {user}").zip
          (extractPlaceholders "Hola {usuario}")),
        regexPlain q.1 = true ∧ replPlain q.2 = true)) ∧
    ((generatePlaceholderFix jsRegExpLit c5scIssue).map
      (fun f => f.newValue) = some (some "Hola {user}")) :=
  ⟨⟨rfl, rfl, rfl, rfl, by decide⟩,
    (spec_C5_placeholder_fix jsRegExpLit c5scIssue "Hi {user}"
      "Hola {usuario}" rfl rfl rfl rfl (by decide)).2.2.2.2⟩

/-- The transformation the claim describes, modeled from its words: scanning
the target value, the placeholder token at scan index `j` is renamed to the
source placeholder name at index `j` when the names at that index differ
(for `j` up to the shorter placeholder list), all other text is unchanged
and unmatched trailing placeholders are untouched.  Structural on a fuel
argument (`length + 1` suffices: every step consumes at least one
character). -/
def renameIdxF : Nat → List String → List String → Nat → List Char →
    List Char
  | 0, _, _, _, l => l
  | _ + 1, _, _, _, [] => []
  | f + 1, sp, tp, j, c :: rest =>
    match phTokenAt (c :: rest) with
    | some (name, tail) =>
      let nm := String.mk name
      let nm2 :=
        match sp[j]?, tp[j]? with
        | some s, some t => if t = nm ∧ ¬ s = t then s else nm
        | _, _ => nm
      '{' :: (nm2.data ++ '}' :: renameIdxF f sp tp (j + 1) tail)
    | none => c :: renameIdxF f sp tp j rest

def specIndexRename (sv tv : String) : String :=
  String.mk (renameIdxF (tv.data.length + 1) (extractPlaceholders sv)
    (extractPlaceholders tv) 0 tv.data)

/-- Issue used in the C5 counterexample: source `{b} {c}`, target
`{a} {b}` (a genuine placeholder mismatch). -/
def c5cxIssue : ValidationIssue :=
  { type := IssueType.placeholderMismatch, locale := "es", key := "k",
    message := "Placeholder mismatch: expected [b, c], found [a, b]",
    severity := Severity.error, sourceValue := some "{b} {c}",
    targetValue := some "{a} {b}" }

/-- Counterexample for C5 as stated: the claim's index-wise rename of
`{a} {b}` against `{b} {c}` gives `{b} {c}`, but the code's sequential
global replacements cascade (`{a}`→`{b}`, then every `{b}`→`{c}`) and
produce `{c} {c}` — under every lawful regex engine, since the placeholder
names involved are plain pattern text. -/
theorem spec_C5_counterexample :
    phMismatch "{b} {c}" "{a} {b}" = true
    ∧ (∀ R : JSRegExp, (generatePlaceholderFix R c5cxIssue).map
        (fun f => f.newValue) = some (some "{c} {c}"))
    ∧ specIndexRename "{b} {c}" "{a} {b}" = "{b} {c}"
    ∧ ¬ ((generatePlaceholderFix jsRegExpLit c5cxIssue).map
        (fun f => f.newValue) =
      some (some (specIndexRename "{b} {c}" "{a} {b}"))) := by
  refine ⟨by decide, ?_, by decide, by decide⟩
  intro R
  rw [generatePlaceholderFix_eq R c5cxIssue "{b} {c}" "{a} {b}"
      rfl rfl rfl rfl,
    fold_replacePh_plain R _ _ (by decide)]
  decide

theorem generatePatches_foldl (o : Rec LocaleFile) (m : Rec LocaleFile)
    (acc : List Patch) :
    m.foldl (fun patches q =>
      match rlookup o q.1 with
      | none => patches
      | some originalFile =>
        if hasChanges originalFile q.2 then
          patches ++ [generatePatch originalFile q.2]
        else patches) acc =
    acc ++ m.filterMap (fun q =>
      (rlookup o q.1).bind (fun of =>
        if hasChanges of q.2 then some (generatePatch of q.2) else none)) := by
  induction m generalizing acc with
  | nil => simp
  | cons q rest ih =>
    rw [List.foldl_cons, List.filterMap_cons]
    cases hrl : rlookup o q.1 with
    | none => exact ih acc
    | some of =>
      by_cases hch : hasChanges of q.2
      · simp [hch, ih (acc ++ [generatePatch of q.2])]
      · simp [hch, ih acc]

theorem patches_length_aux (o : Rec LocaleFile) (m : Rec LocaleFile) :
    (m.filterMap (fun q =>
      (rlookup o q.1).bind (fun of =>
        if hasChanges of q.2 then some (generatePatch of q.2)
        else none))).length =
    m.countP (fun q =>
      ((rlookup o q.1).map (fun of => hasChanges of q.2)).getD false) := by
  induction m with
  | nil => simp
  | cons q rest ih =>
    rw [List.filterMap_cons, List.countP_cons]
    cases hrl : rlookup o q.1 with
    | none => simp [ih]
    | some of =>
      by_cases hch : hasChanges of q.2
      · simp [hch, ih]
      · simp [hch, ih]

/-- C8: `generatePatches` returns exactly one Patch for each locale present
in both maps whose canonical serializations differ; a locale absent from
the originals map, or whose canonical serialization is unchanged, produces
no Patch. -/
theorem spec_C8_generatePatches (o m : Rec LocaleFile) :
    generatePatches o m = m.filterMap (fun q =>
      (rlookup o q.1).bind (fun of =>
        if hasChanges of q.2 then some (generatePatch of q.2) else none))
    ∧ (generatePatches o m).length = m.countP (fun q =>
        ((rlookup o q.1).map (fun of => hasChanges of q.2)).getD false) := by
  have h1 : generatePatches o m = m.filterMap (fun q =>
      (rlookup o q.1).bind (fun of =>
        if hasChanges of q.2 then some (generatePatch of q.2)
        else none)) := by
    rw [generatePatches]
    exact generatePatches_foldl o m []
  exact ⟨h1, by rw [h1]; exact patches_length_aux o m⟩

theorem cloneJVal_id (v : JVal) : cloneJVal v = v := by
  induction v using cloneJVal.induct with
  | case1 s => rw [cloneJVal]
  | case2 fs ih =>
    rw [cloneJVal]
    congr 1
    have hmap : fs.attach.map (fun q => (q.1.1, cloneJVal q.1.2)) =
        fs.attach.map (fun q => q.1) := by
      apply List.map_congr_left
      intro q _
      rw [ih q]
    rw [hmap, List.attach_map_subtype_val]

theorem cloneOpt_id (o : Option JVal) : o.map cloneJVal = o := by
  cases o with
  | none => rfl
  | some v => simp [cloneJVal_id]

theorem cloneLocaleEntry_id (e : LocaleEntry) : cloneLocaleEntry e = e := by
  obtain ⟨k, v, md, d, ph, cx, tg⟩ := e
  simp [cloneLocaleEntry, cloneOpt_id]

theorem cloneEntries_id (l : Rec LocaleEntry) :
    l.map (fun p => (p.1, cloneLocaleEntry p.2)) = l := by
  induction l with
  | nil => rfl
  | cons p rest ih =>
    obtain ⟨k, e⟩ := p
    simp [cloneLocaleEntry_id, ih]

theorem cloneRaw_id (l : Rec JVal) :
    l.map (fun p => (p.1, cloneJVal p.2)) = l := by
  induction l with
  | nil => rfl
  | cons p rest ih =>
    obtain ⟨k, v⟩ := p
    simp [cloneJVal_id, ih]

theorem cloneLocaleFile_id (f : LocaleFile) : cloneLocaleFile f = f := by
  obtain ⟨loc, path, fmt, es, raw⟩ := f
  simp [cloneLocaleFile, cloneEntries_id, cloneRaw_id]

/-- C7: `autoFix` never mutates the caller's document: the clone it operates
on is a faithful deep copy equal (as a value) to the input, so the result is
exactly the result of running the fix pipeline on that copy, and the caller
keeps the unmodified input to diff against. -/
theorem spec_C7_autofix_deep_copy (config : LocalzConfig)
    (sourceFile targetFile : LocaleFile) (issues : List ValidationIssue) :
    cloneLocaleFile targetFile = targetFile ∧
      autoFix config sourceFile targetFile issues =
        autoFix config sourceFile (cloneLocaleFile targetFile) issues := by
  refine ⟨cloneLocaleFile_id targetFile, ?_⟩
  rw [cloneLocaleFile_id]

/-- The fix kind `generateFix` produces for each issue kind. -/
def fixTypeOf : IssueType → FixType
  | IssueType.missing => FixType.addMissing
  | IssueType.extra => FixType.removeExtra
  | IssueType.duplicate => FixType.removeDuplicate
  | IssueType.placeholderMismatch => FixType.fixPlaceholder
  | IssueType.icuError => FixType.fixICU
  | IssueType.formatting => FixType.fixFormatting

theorem generatePlaceholderFix_fields (R : JSRegExp) (i : ValidationIssue)
    (fix : Fix') (h : generatePlaceholderFix R i = some fix) :
    fix.key = i.key ∧ fix.type = FixType.fixPlaceholder ∧
      fix.locale = i.locale := by
  obtain ⟨ity, iloc, ikey, imsg, isev, isv, itv, isug⟩ := i
  cases isv with
  | none =>
    cases itv <;>
      (simp only [generatePlaceholderFix, Option.some.injEq] at h;
        subst h;
        exact ⟨rfl, rfl, rfl⟩)
  | some sv =>
    cases itv with
    | none =>
      simp only [generatePlaceholderFix, Option.some.injEq] at h
      subst h
      exact ⟨rfl, rfl, rfl⟩
    | some tv =>
      simp only [generatePlaceholderFix] at h
      by_cases he : (sv.isEmpty || tv.isEmpty) = true
      · rw [if_pos he] at h
        simp only [Option.some.injEq] at h
        subst h
        exact ⟨rfl, rfl, rfl⟩
      · rw [if_neg he] at h
        rw [Option.map_eq_some'] at h
        obtain ⟨fv, hfv, rfl⟩ := h
        exact ⟨rfl, rfl, rfl⟩

theorem generateICUFix_fields (i : ValidationIssue) :
    (generateICUFix i).key = i.key ∧
      (generateICUFix i).type = FixType.fixICU ∧
      (generateICUFix i).locale = i.locale := by
  obtain ⟨ity, iloc, ikey, imsg, isev, isv, itv, isug⟩ := i
  cases isv <;> simp [generateICUFix] <;> split <;> simp

theorem generateFix_spec (src d : LocaleFile) (i : ValidationIssue)
    (fix : Fix') (h : generateFix src d i = some fix) :
    fix.key = i.key ∧ fix.type = fixTypeOf i.type := by
  cases hty : i.type <;> rw [generateFix, hty] at h
  case missing =>
    rw [generateMissingKeyFix] at h
    cases hrl : rlookup src.entries i.key with
    | none =>
      rw [hrl] at h
      simp at h
    | some e =>
      rw [hrl] at h
      simp only [Option.map_some', Option.some.injEq] at h
      subst h
      exact ⟨rfl, rfl⟩
  case extra =>
    simp only [Option.some.injEq] at h
    subst h
    exact ⟨rfl, rfl⟩
  case duplicate =>
    simp only [Option.some.injEq] at h
    subst h
    exact ⟨rfl, rfl⟩
  case placeholderMismatch =>
    have hf := generatePlaceholderFix_fields jsRegExpLit i fix h
    exact ⟨hf.1, by rw [hf.2.1]; rfl⟩
  case icuError =>
    simp only [Option.some.injEq] at h
    subst h
    have hf := generateICUFix_fields i
    exact ⟨hf.1, by rw [hf.2.1]; rfl⟩
  case formatting =>
    simp only [Option.some.injEq] at h
    subst h
    exact ⟨rfl, rfl⟩

theorem rkeys_rerase_subset {α : Type} (r : Rec α) (key k : String)
    (h : k ∈ rkeys (rerase r key)) : k ∈ rkeys r := by
  rw [rkeys, List.mem_map] at h
  obtain ⟨p, hp, rfl⟩ := h
  rw [rerase] at hp
  exact List.mem_map_of_mem Prod.fst (List.mem_of_mem_filter hp)

theorem rkeys_rerase_not_mem {α : Type} (r : Rec α) (key : String) :
    key ∉ rkeys (rerase r key) := by
  intro h
  rw [rkeys, List.mem_map] at h
  obtain ⟨p, hp, hk⟩ := h
  rw [rerase, List.mem_filter] at hp
  rw [hk] at hp
  simpa using hp.2

theorem applyFix_value_keys (src : LocaleFile) (ty : FixType)
    (loc key : String) (ov nvv : Option String) (desc : String)
    (d : LocaleFile)
    (hty : ty = FixType.fixPlaceholder ∨ ty = FixType.fixICU ∨
      ty = FixType.fixFormatting) :
    rkeys (applyFix src ⟨ty, loc, key, ov, nvv, desc⟩ d).entries =
      rkeys d.entries := by
  have hredN : nvv = none →
      applyFix src ⟨ty, loc, key, ov, nvv, desc⟩ d = d := by
    intro he
    rcases hty with h | h | h <;> cases h <;> (cases he; rfl)
  have hredS : ∀ nv, nvv = some nv →
      applyFix src ⟨ty, loc, key, ov, nvv, desc⟩ d =
        (if ¬ nv.isEmpty ∧ (rlookup d.entries key).isSome then
          { d with entries := d.entries.map (fun p =>
              if p.1 = key then (p.1, { p.2 with value := nv }) else p) }
         else d) := by
    intro nv he
    rcases hty with h | h | h <;> cases h <;> (cases he; rfl)
  cases hnv : nvv with
  | none => rw [← hnv, hredN hnv]
  | some nv =>
    rw [← hnv, hredS nv hnv]
    by_cases hc : ¬ nv.isEmpty = true ∧ (rlookup d.entries key).isSome = true
    · rw [if_pos hc]
      exact rkeys_map_update d.entries key (fun e => { e with value := nv })
    · rw [if_neg hc]

theorem applyFix_add_keys (src : LocaleFile) (ty : FixType)
    (loc key : String) (ov nvv : Option String) (desc : String)
    (d : LocaleFile) (hty : ty = FixType.addMissing) :
    rkeys (applyFix src ⟨ty, loc, key, ov, nvv, desc⟩ d).entries =
      (if (rkeys d.entries).contains key then rkeys d.entries
       else rkeys d.entries ++ [key]) := by
  cases hty
  rw [show applyFix src ⟨FixType.addMissing, loc, key, ov, nvv, desc⟩ d =
    { d with
        entries := rset d.entries key
          { key := key, value := jsOrStr nvv "TODO",
            metadata := (rlookup src.entries key).bind (fun e => e.metadata),
            description :=
              (rlookup src.entries key).bind (fun e => e.description),
            placeholders :=
              (rlookup src.entries key).bind (fun e => e.placeholders) } }
    from rfl]
  exact rkeys_rset d.entries key _

theorem applyFix_erase_entries (src : LocaleFile) (ty : FixType)
    (loc key : String) (ov nvv : Option String) (desc : String)
    (d : LocaleFile)
    (hty : ty = FixType.removeExtra ∨ ty = FixType.removeDuplicate) :
    (applyFix src ⟨ty, loc, key, ov, nvv, desc⟩ d).entries =
      rerase d.entries key := by
  rcases hty with h | h <;> cases h <;> rfl

theorem applyFix_keys (src : LocaleFile) (fix : Fix') (d : LocaleFile)
    (k : String) (h : k ∈ rkeys (applyFix src fix d).entries) :
    k ∈ rkeys d.entries ∨
      (fix.type = FixType.addMissing ∧ k = fix.key) := by
  obtain ⟨ty, loc, key, ov, nvv, desc⟩ := fix
  simp only
  cases hty : ty
  case addMissing =>
    rw [show applyFix src ⟨ty, loc, key, ov, nvv, desc⟩ d =
        applyFix src ⟨FixType.addMissing, loc, key, ov, nvv, desc⟩ d from by
      rw [hty]] at h
    rw [applyFix_add_keys src FixType.addMissing loc key ov nvv desc d rfl]
      at h
    by_cases hc : (rkeys d.entries).contains key
    · rw [if_pos hc] at h
      exact Or.inl h
    · rw [if_neg hc] at h
      rcases List.mem_append.mp h with h2 | h2
      · exact Or.inl h2
      · simp at h2
        exact Or.inr ⟨rfl, h2⟩
  case removeExtra =>
    rw [show applyFix src ⟨ty, loc, key, ov, nvv, desc⟩ d =
        applyFix src ⟨FixType.removeExtra, loc, key, ov, nvv, desc⟩ d from by
      rw [hty]] at h
    rw [show (applyFix src
        ⟨FixType.removeExtra, loc, key, ov, nvv, desc⟩ d).entries =
      rerase d.entries key from
        applyFix_erase_entries src _ loc key ov nvv desc d (Or.inl rfl)] at h
    exact Or.inl (rkeys_rerase_subset d.entries key k h)
  case removeDuplicate =>
    rw [show applyFix src ⟨ty, loc, key, ov, nvv, desc⟩ d =
        applyFix src ⟨FixType.removeDuplicate, loc, key, ov, nvv, desc⟩ d
      from by rw [hty]] at h
    rw [show (applyFix src
        ⟨FixType.removeDuplicate, loc, key, ov, nvv, desc⟩ d).entries =
      rerase d.entries key from
        applyFix_erase_entries src _ loc key ov nvv desc d (Or.inr rfl)] at h
    exact Or.inl (rkeys_rerase_subset d.entries key k h)
  case fixPlaceholder =>
    rw [show applyFix src ⟨ty, loc, key, ov, nvv, desc⟩ d =
        applyFix src ⟨FixType.fixPlaceholder, loc, key, ov, nvv, desc⟩ d
      from by rw [hty]] at h
    rw [applyFix_value_keys src FixType.fixPlaceholder loc key ov nvv desc d
      (Or.inl rfl)] at h
    exact Or.inl h
  case fixICU =>
    rw [show applyFix src ⟨ty, loc, key, ov, nvv, desc⟩ d =
        applyFix src ⟨FixType.fixICU, loc, key, ov, nvv, desc⟩ d
      from by rw [hty]] at h
    rw [applyFix_value_keys src FixType.fixICU loc key ov nvv desc d
      (Or.inr (Or.inl rfl))] at h
    exact Or.inl h
  case fixFormatting =>
    rw [show applyFix src ⟨ty, loc, key, ov, nvv, desc⟩ d =
        applyFix src ⟨FixType.fixFormatting, loc, key, ov, nvv, desc⟩ d
      from by rw [hty]] at h
    rw [applyFix_value_keys src FixType.fixFormatting loc key ov nvv desc d
      (Or.inr (Or.inr rfl))] at h
    exact Or.inl h

theorem applyFix_removes (src : LocaleFile) (fix : Fix') (d : LocaleFile)
    (hty : fix.type = FixType.removeExtra) :
    fix.key ∉ rkeys (applyFix src fix d).entries := by
  obtain ⟨ty, loc, key, ov, nvv, desc⟩ := fix
  simp only at hty ⊢
  cases hty
  rw [show (applyFix src
      ⟨FixType.removeExtra, loc, key, ov, nvv, desc⟩ d).entries =
    rerase d.entries key from
      applyFix_erase_entries src _ loc key ov nvv desc d (Or.inl rfl)]
  exact rkeys_rerase_not_mem d.entries key

theorem issueType_of_addMissing (t : IssueType)
    (h : fixTypeOf t = FixType.addMissing) : t = IssueType.missing := by
  cases t <;> revert h <;> decide

theorem issueType_of_removeExtra (t : IssueType)
    (h : fixTypeOf t = FixType.removeExtra) : t = IssueType.extra := by
  cases t <;> revert h <;> decide

theorem autoFixStep_keys (config : LocalzConfig) (src : LocaleFile)
    (st : LocaleFile × List Fix') (i : ValidationIssue) (k : String)
    (h : k ∈ rkeys (autoFixStep config src st i).1.entries) :
    k ∈ rkeys st.1.entries ∨
      (i.type = IssueType.missing ∧ k = i.key) := by
  rw [autoFixStep] at h
  cases hg : generateFix src st.1 i with
  | none =>
    rw [hg] at h
    exact Or.inl h
  | some fix =>
    rw [hg] at h
    dsimp only at h
    by_cases hd : config.doAutoFix = true
    · rw [if_pos hd] at h
      rcases applyFix_keys src fix st.1 k h with h2 | ⟨hadd, hk⟩
      · exact Or.inl h2
      · right
        have hspec := generateFix_spec src st.1 i fix hg
        have h3 : fixTypeOf i.type = FixType.addMissing := by
          rw [← hspec.2, hadd]
        exact ⟨issueType_of_addMissing i.type h3, by rw [hk, hspec.1]⟩
    · rw [if_neg hd] at h
      exact Or.inl h

theorem autoFixStep_fixes (config : LocalzConfig) (src : LocaleFile)
    (st : LocaleFile × List Fix') (i : ValidationIssue) (fix : Fix')
    (h : fix ∈ (autoFixStep config src st i).2) :
    fix ∈ st.2 ∨ generateFix src st.1 i = some fix := by
  rw [autoFixStep] at h
  cases hg : generateFix src st.1 i with
  | none =>
    rw [hg] at h
    exact Or.inl h
  | some f2 =>
    rw [hg] at h
    dsimp only at h
    by_cases hd : config.doAutoFix = true
    · rw [if_pos hd] at h
      rcases List.mem_append.mp h with h2 | h2
      · exact Or.inl h2
      · simp at h2
        subst h2
        exact Or.inr rfl
    · rw [if_neg hd] at h
      exact Or.inl h

theorem autoFixStep_extra_removes (config : LocalzConfig) (src : LocaleFile)
    (st : LocaleFile × List Fix') (i : ValidationIssue)
    (hd : config.doAutoFix = true) (hty : i.type = IssueType.extra) :
    i.key ∉ rkeys (autoFixStep config src st i).1.entries := by
  rw [autoFixStep]
  rw [show generateFix src st.1 i = some (generateExtraKeyFix i) from by
    rw [generateFix, hty]]
  dsimp only
  rw [if_pos hd]
  exact applyFix_removes src (generateExtraKeyFix i) st.1 rfl

theorem foldSt_keys (config : LocalzConfig) (src : LocaleFile)
    (L : List ValidationIssue) :
    ∀ (st : LocaleFile × List Fix') (k : String),
      k ∈ rkeys ((L.foldl (autoFixStep config src) st).1.entries) →
      k ∈ rkeys st.1.entries ∨
        ∃ i ∈ L, i.type = IssueType.missing ∧ k = i.key := by
  induction L with
  | nil =>
    intro st k h
    rw [List.foldl_nil] at h
    exact Or.inl h
  | cons i rest ih =>
    intro st k h
    rw [List.foldl_cons] at h
    rcases ih (autoFixStep config src st i) k h with h2 | ⟨i2, hi2, hprop⟩
    · rcases autoFixStep_keys config src st i k h2 with h3 | h3
      · exact Or.inl h3
      · exact Or.inr ⟨i, List.mem_cons_self _ _, h3⟩
    · exact Or.inr ⟨i2, List.mem_cons_of_mem _ hi2, hprop⟩

theorem foldSt_absent (config : LocalzConfig) (src : LocaleFile)
    (L : List ValidationIssue)
    (hnomiss : ∀ i ∈ L, i.type ≠ IssueType.missing) :
    ∀ (st : LocaleFile × List Fix') (k : String),
      k ∉ rkeys st.1.entries →
      k ∉ rkeys ((L.foldl (autoFixStep config src) st).1.entries) := by
  intro st k hk hmem
  rcases foldSt_keys config src L st k hmem with h | ⟨i, hi, hty, _⟩
  · exact hk h
  · exact hnomiss i hi hty

theorem foldSt_fixes (config : LocalzConfig) (src : LocaleFile)
    (L : List ValidationIssue) :
    ∀ (st : LocaleFile × List Fix') (fix : Fix'),
      fix ∈ (L.foldl (autoFixStep config src) st).2 →
      fix ∈ st.2 ∨
        ∃ i ∈ L, ∃ d : LocaleFile, generateFix src d i = some fix := by
  induction L with
  | nil =>
    intro st fix h
    rw [List.foldl_nil] at h
    exact Or.inl h
  | cons i rest ih =>
    intro st fix h
    rw [List.foldl_cons] at h
    rcases ih (autoFixStep config src st i) fix h with h2 | ⟨i2, hi2, d, hd⟩
    · rcases autoFixStep_fixes config src st i fix h2 with h3 | h3
      · exact Or.inl h3
      · exact Or.inr ⟨i, List.mem_cons_self _ _, st.1, h3⟩
    · exact Or.inr ⟨i2, List.mem_cons_of_mem _ hi2, d, hd⟩

theorem reorderToMatchSource_keys (src f : LocaleFile) (k : String)
    (h : k ∈ rkeys (reorderToMatchSource src f).entries) :
    k ∈ rkeys f.entries := by
  simp only [reorderToMatchSource] at h
  rw [rkeys, List.map_append] at h
  rcases List.mem_append.mp h with h2 | h2
  · rw [List.mem_map] at h2
    obtain ⟨p, hp, rfl⟩ := h2
    rw [List.mem_filterMap] at hp
    obtain ⟨k2, _, heq⟩ := hp
    cases hrl : rlookup f.entries k2 with
    | none =>
      rw [hrl] at heq
      simp at heq
    | some e =>
      rw [hrl] at heq
      simp at heq
      rw [← heq]
      exact List.mem_map_of_mem Prod.fst (mem_of_rlookup_eq_some hrl)
  · rw [List.mem_map] at h2
    obtain ⟨p, hp, rfl⟩ := h2
    exact List.mem_map_of_mem Prod.fst (List.mem_of_mem_filter hp)

theorem reorderAlphabetically_keys (f : LocaleFile) (k : String)
    (h : k ∈ rkeys (reorderAlphabetically f).entries) :
    k ∈ rkeys f.entries := by
  simp only [reorderAlphabetically] at h
  rw [rkeys, List.mem_map] at h
  obtain ⟨p, hp, rfl⟩ := h
  rw [List.mem_filterMap] at hp
  obtain ⟨k2, _, heq⟩ := hp
  cases hrl : rlookup f.entries k2 with
  | none =>
    rw [hrl] at heq
    simp at heq
  | some e =>
    rw [hrl] at heq
    simp at heq
    rw [← heq]
    exact List.mem_map_of_mem Prod.fst (mem_of_rlookup_eq_some hrl)

theorem autoFix_keys_subset (icu : ICUModel) (config : LocalzConfig)
    (src tgt : LocaleFile) (hd : config.doAutoFix = true) (k : String)
    (h : k ∈ rkeys
      (autoFix config src tgt (validateTarget icu src tgt)).1.entries) :
    k ∈ rkeys src.entries := by
  by_contra hks
  have h0 : k ∈ rkeys (((validateTarget icu src tgt).foldl
      (autoFixStep config src) (cloneLocaleFile tgt, [])).1.entries) := by
    simp only [autoFix] at h
    by_cases h1 : config.preferOrder = some PreferOrder.mirrorSource
    · rw [if_pos h1] at h
      exact reorderToMatchSource_keys src _ k h
    · rw [if_neg h1] at h
      by_cases h2 : config.preferOrder = some PreferOrder.alphabetical
      · rw [if_pos h2] at h
        exact reorderAlphabetically_keys _ k h
      · rw [if_neg h2] at h
        exact h
  rw [cloneLocaleFile_id] at h0
  rw [validateTarget] at h0
  rw [List.foldl_append, List.foldl_append, List.foldl_append,
    List.foldl_append, List.foldl_append] at h0
  have hR : k ∈ rkeys (((checkExtraKeys src tgt).foldl
      (autoFixStep config src) ((checkMissingKeys src tgt).foldl
        (autoFixStep config src) (tgt, []))).1.entries) := by
    by_contra habs
    have habs2 := foldSt_absent config src (checkDuplicates tgt)
      (fun i hi => by
        rw [mem_checkDuplicates_type tgt i hi]
        decide) _ k habs
    have habs3 := foldSt_absent config src (checkPlaceholders src tgt)
      (fun i hi => by
        rw [(mem_checkPlaceholders src tgt i hi).1]
        decide) _ k habs2
    have habs4 := foldSt_absent config src (checkICUMessages icu src tgt)
      (fun i hi => by
        rw [mem_checkICU_type icu src tgt i hi]
        decide) _ k habs3
    have habs5 := foldSt_absent config src (checkFormatting tgt)
      (fun i hi => by
        rw [mem_checkFormatting_type tgt i hi]
        decide) _ k habs4
    exact habs5 h0
  have hM : k ∈ rkeys (((checkMissingKeys src tgt).foldl
      (autoFixStep config src) (tgt, [])).1.entries) := by
    rcases foldSt_keys config src (checkExtraKeys src tgt) _ k hR with
      h2 | ⟨i, hi, hty, _⟩
    · exact h2
    · rw [(mem_checkExtra src tgt i hi).1] at hty
      exact absurd hty (by decide)
  have hT : k ∈ rkeys tgt.entries := by
    rcases foldSt_keys config src (checkMissingKeys src tgt) _ k hM with
      h2 | ⟨i, hi, _, hk2⟩
    · exact h2
    · obtain ⟨_, _, _, e, hmem, _⟩ := mem_checkMissing src tgt i hi
      exact absurd (by
        rw [hk2]
        exact List.mem_map_of_mem Prod.fst hmem) hks
  have hex : ∃ i ∈ checkExtraKeys src tgt, i.key = k := by
    have hmemk : k ∈ (checkExtraKeys src tgt).map (fun i => i.key) := by
      rw [checkExtra_keys]
      rw [List.mem_filter]
      refine ⟨hT, ?_⟩
      simp only [Bool.not_eq_true']
      rw [show ((rkeys src.entries).contains k = false) =
        ((rkeys src.entries).contains k = false) from rfl]
      by_contra hcc
      simp at hcc
      exact hks (by simpa using hcc)
    rw [List.mem_map] at hmemk
    obtain ⟨i, hi, hk⟩ := hmemk
    exact ⟨i, hi, hk⟩
  obtain ⟨i0, hi0, hk0⟩ := hex
  obtain ⟨E1, E2, hEeq⟩ := List.append_of_mem hi0
  have hgone : k ∉ rkeys (((checkExtraKeys src tgt).foldl
      (autoFixStep config src) ((checkMissingKeys src tgt).foldl
        (autoFixStep config src) (tgt, []))).1.entries) := by
    rw [hEeq, List.foldl_append, List.foldl_cons]
    apply foldSt_absent config src E2
    · intro i hi
      have hii : i ∈ checkExtraKeys src tgt := by
        rw [hEeq]
        exact List.mem_append.mpr (Or.inr (List.mem_cons_of_mem _ hi))
      rw [(mem_checkExtra src tgt i hii).1]
      decide
    · have hty0 := (mem_checkExtra src tgt i0 hi0).1
      have hrem := autoFixStep_extra_removes config src
        (E1.foldl (autoFixStep config src) ((checkMissingKeys src tgt).foldl
          (autoFixStep config src) (tgt, []))) i0 hd hty0
      rw [← hk0]
      exact hrem
  exact hgone hR

theorem validateTarget_extra_mem (icu : ICUModel) (s t : LocaleFile)
    (i : ValidationIssue) (hi : i ∈ validateTarget icu s t)
    (hty : i.type = IssueType.extra) : i ∈ checkExtraKeys s t := by
  rw [validateTarget] at hi
  simp only [List.mem_append] at hi
  rcases hi with ((((h | h) | h) | h) | h) | h
  · rw [(mem_checkMissing s t i h).1] at hty
    exact absurd hty (by decide)
  · exact h
  · rw [mem_checkDuplicates_type t i h] at hty
    exact absurd hty (by decide)
  · rw [(mem_checkPlaceholders s t i h).1] at hty
    exact absurd hty (by decide)
  · rw [mem_checkICU_type icu s t i h] at hty
    exact absurd hty (by decide)
  · rw [mem_checkFormatting_type t i h] at hty
    exact absurd hty (by decide)

/-- C6 (amended): with auto-fix authorized, running autoFix, re-validating
the fixed document against the same source, and running autoFix on the
re-detected issues yields zero new fixes of kind `removeExtra` (re-validation
finds no extra keys at all): every extra defect is resolved exactly once.
(`addMissing` and `removeDuplicate` fixes can recur: removing a duplicate
whose key exists in the source re-creates a missing defect, and TODO-filled
additions can introduce new duplicate values.) -/
theorem spec_C6_extra_fixed_once (icu : ICUModel) (config : LocalzConfig)
    (src tgt : LocaleFile) (hd : config.doAutoFix = true) :
    checkExtraKeys src
      (autoFix config src tgt (validateTarget icu src tgt)).1 = []
    ∧ ∀ fix ∈ (autoFix config src
        (autoFix config src tgt (validateTarget icu src tgt)).1
        (validateTarget icu src
          (autoFix config src tgt (validateTarget icu src tgt)).1)).2,
      fix.type ≠ FixType.removeExtra := by
  have hempty : checkExtraKeys src
      (autoFix config src tgt (validateTarget icu src tgt)).1 = [] := by
    rw [checkExtraKeys]
    rw [List.filterMap_eq_nil_iff]
    intro p hp
    have hmem : p.1 ∈ rkeys src.entries :=
      autoFix_keys_subset icu config src tgt hd p.1
        (List.mem_map_of_mem Prod.fst hp)
    have hc : (rkeys src.entries).contains p.1 = true := by
      simpa using hmem
    rw [if_pos hc]
  refine ⟨hempty, ?_⟩
  intro fix hf
  have hf2 : fix ∈ ((validateTarget icu src
      (autoFix config src tgt (validateTarget icu src tgt)).1).foldl
      (autoFixStep config src)
      (cloneLocaleFile
        (autoFix config src tgt (validateTarget icu src tgt)).1, [])).2 := hf
  rcases foldSt_fixes config src _ _ fix hf2 with h | ⟨i, hi, d, hgen⟩
  · simp at h
  · intro hre
    have hspec := generateFix_spec src d i fix hgen
    rw [hre] at hspec
    have hty : i.type = IssueType.extra :=
      issueType_of_removeExtra i.type hspec.2.symm
    have hmem := validateTarget_extra_mem icu src
      (autoFix config src tgt (validateTarget icu src tgt)).1 i hi hty
    rw [hempty] at hmem
    simp at hmem

/-- Concrete inputs for the C6 witness. -/
def c6wcfg : LocalzConfig := { doAutoFix := true }

def c6wsrc : LocaleFile :=
  { locale := "en", path := "en.json", format := LFormat.json,
    entries := [("a", { key := "a", value := "x" })], raw := [] }

def c6wtgt : LocaleFile :=
  { locale := "es", path := "es.json", format := LFormat.json,
    entries := [("a", { key := "a", value := "ok" }),
                ("z", { key := "z", value := "stale" })],
    raw := [] }

/-- Witness for C6 at a concrete source/target pair with an extra key. -/
theorem spec_C6_extra_fixed_once_witness :
    c6wcfg.doAutoFix = true ∧
    (checkExtraKeys c6wsrc
      (autoFix c6wcfg c6wsrc c6wtgt
        (validateTarget noICU c6wsrc c6wtgt)).1 = []
    ∧ ∀ fix ∈ (autoFix c6wcfg c6wsrc
        (autoFix c6wcfg c6wsrc c6wtgt
          (validateTarget noICU c6wsrc c6wtgt)).1
        (validateTarget noICU c6wsrc
          (autoFix c6wcfg c6wsrc c6wtgt
            (validateTarget noICU c6wsrc c6wtgt)).1)).2,
      fix.type ≠ FixType.removeExtra) :=
  ⟨rfl, spec_C6_extra_fixed_once noICU c6wcfg c6wsrc c6wtgt rfl⟩

/-- Concrete inputs for the C6 counterexample: two source keys, empty
target. -/
def c6cfg : LocalzConfig := { doAutoFix := true }

def c6src : LocaleFile :=
  { locale := "en", path := "en.json", format := LFormat.json,
    entries := [("a", { key := "a", value := "x" }),
                ("b", { key := "b", value := "y" })],
    raw := [] }

def c6tgt : LocaleFile :=
  { locale := "es", path := "es.json", format := LFormat.json,
    entries := [], raw := [] }

/-- Counterexample for C6 as stated: fixing the empty target adds both
missing keys with the value `TODO`; re-validating the fixed document flags
the second as a duplicate, and the second autoFix run emits a new
`removeDuplicate` fix — not zero. -/
theorem spec_C6_counterexample :
    ((autoFix c6cfg c6src
        (autoFix c6cfg c6src c6tgt (validateTarget noICU c6src c6tgt)).1
        (validateTarget noICU c6src
          (autoFix c6cfg c6src c6tgt
            (validateTarget noICU c6src c6tgt)).1)).2.countP
      (fun f => f.type = FixType.removeDuplicate)) = 1
    ∧ ¬ (∀ fix ∈ (autoFix c6cfg c6src
        (autoFix c6cfg c6src c6tgt (validateTarget noICU c6src c6tgt)).1
        (validateTarget noICU c6src
          (autoFix c6cfg c6src c6tgt
            (validateTarget noICU c6src c6tgt)).1)).2,
      fix.type ≠ FixType.addMissing ∧ fix.type ≠ FixType.removeExtra ∧
        fix.type ≠ FixType.removeDuplicate) :=
  ⟨by decide, by decide⟩

/- ### C2: round-trip of `parseFile` and `generateJsonContent` -/

/-- The modeled metadata field `fld` of key `k` in a raw JSON object: the
field of the companion `@k` object (`description`, `placeholders`, ...). -/
def mdField (r : Rec JVal) (k fld : String) : Option JVal :=
  (rlookup r ("@" ++ k)).bind (fun m => getField m fld)

/-- Raw value well-formedness: a plain (non-`@`) key maps to a JSON string. -/
def isStrVal : JVal → Bool
  | .str _ => true
  | .obj _ => false

/-- Raw metadata well-formedness: an `@`-key maps to a JSON object whose
field names are unique (as produced by any JSON parser). -/
def isMetaObj : JVal → Bool
  | .str _ => false
  | .obj fs => decide ((rkeys fs).Nodup)

/-- The document-level locale marker, when present, is truthy (a JSON parse
never yields an empty-string `@@locale` in a well-formed ARB file that has
one; the writer drops a falsy marker). -/
def okLocale (x : Rec JVal) : Bool :=
  match rlookup x "@@locale" with
  | none => true
  | some v => truthy v

theorem string_data_inj {a b : String} (h : a.data = b.data) : a = b := by
  cases a; cases b; exact congrArg String.mk h

theorem str_append_data (a b : String) : (a ++ b).data = a.data ++ b.data := by
  cases a; cases b; rfl

theorem strStarts_at_append (k : String) : strStarts "@" ("@" ++ k) = true := by
  show List.isPrefixOf "@".data ("@" ++ k).data = true
  rw [str_append_data]
  show List.isPrefixOf ['@'] ('@' :: k.data) = true
  simp [List.isPrefixOf]

theorem at_append_inj {a b : String} (h : "@" ++ a = "@" ++ b) : a = b := by
  apply string_data_inj
  have h2 := congrArg String.data h
  rw [str_append_data, str_append_data] at h2
  have h1 : "@".data = ['@'] := rfl
  rw [h1] at h2
  simpa using h2

theorem at_append_ne {k : String} (hk : strStarts "@" k = false)
    (q : String) : "@" ++ q ≠ k := by
  intro he
  rw [← he, strStarts_at_append] at hk
  cases hk

theorem strStarts_atat_append (k : String) :
    strStarts "@@" ("@" ++ k) = strStarts "@" k := by
  show List.isPrefixOf "@@".data ("@" ++ k).data
    = List.isPrefixOf "@".data k.data
  rw [str_append_data]
  have h1 : "@".data = ['@'] := rfl
  have h2 : "@@".data = ['@', '@'] := rfl
  rw [h1, h2]
  simp [List.isPrefixOf]

theorem ne_atatlocale {k : String} (hk : strStarts "@" k = false) :
    k ≠ "@@locale" := by
  intro he
  rw [he] at hk
  exact absurd hk (by decide)

theorem at_append_ne_atatlocale {k : String} (hk : strStarts "@" k = false) :
    "@" ++ k ≠ "@@locale" := by
  intro he
  have h0 : "@" ++ k = "@" ++ "@locale" := by
    rw [he]; decide
  have h1 : k = "@locale" := at_append_inj h0
  rw [h1] at hk
  exact absurd hk (by decide)

theorem contains_iff_mem {l : List String} {a : String} :
    l.contains a = true ↔ a ∈ l := List.elem_iff

theorem rlookup_cons {α : Type} (pk : String) (v : α) (rest : Rec α)
    (k : String) :
    rlookup ((pk, v) :: rest) k = if pk = k then some v else rlookup rest k :=
  rfl

theorem parseAux_lookup (raw l : Rec JVal) (k : String) :
    rlookup (l.filterMap (fun p =>
        if strStarts "@" p.1 then none
        else some (p.1, mkJsonEntry raw p.1 p.2))) k =
      (if strStarts "@" k then none
       else (rlookup l k).map (fun v => mkJsonEntry raw k v)) := by
  induction l with
  | nil => cases h : strStarts "@" k <;> simp [rlookup, h]
  | cons p rest ih =>
    obtain ⟨pk, pv⟩ := p
    rw [List.filterMap_cons]
    dsimp only
    by_cases hpk : strStarts "@" pk = true
    · rw [if_pos hpk, ih]
      by_cases hk : strStarts "@" k = true
      · rw [if_pos hk, if_pos hk]
      · rw [if_neg hk, if_neg hk]
        have hne : pk ≠ k := fun he => hk (he ▸ hpk)
        rw [rlookup_cons, if_neg hne]
    · rw [if_neg hpk]
      rw [rlookup_cons, rlookup_cons]
      by_cases hpkk : pk = k
      · subst hpkk
        rw [if_pos rfl, if_pos rfl, if_neg hpk]
        rfl
      · rw [if_neg hpkk, if_neg hpkk, ih]

theorem parseJsonEntries_lookup (x : Rec JVal) (k : String) :
    rlookup (parseJsonEntries x) k =
      (if strStarts "@" k then none
       else (rlookup x k).map (fun v => mkJsonEntry x k v)) :=
  parseAux_lookup x x k

theorem parseAux_keys (raw l : Rec JVal) :
    rkeys (l.filterMap (fun p =>
        if strStarts "@" p.1 then none
        else some (p.1, mkJsonEntry raw p.1 p.2))) =
      (rkeys l).filter (fun q => !(strStarts "@" q)) := by
  induction l with
  | nil => rfl
  | cons p rest ih =>
    obtain ⟨pk, pv⟩ := p
    rw [List.filterMap_cons]
    dsimp only
    by_cases hpk : strStarts "@" pk = true
    · rw [if_pos hpk, ih]
      show List.filter _ (rkeys rest) = List.filter _ (pk :: rkeys rest)
      rw [show List.filter (fun q => !(strStarts "@" q)) (pk :: rkeys rest) =
          List.filter (fun q => !(strStarts "@" q)) (rkeys rest) from by
        simp [List.filter_cons, hpk]]
    · rw [if_neg hpk]
      show pk :: rkeys _ = List.filter _ (pk :: rkeys rest)
      rw [show List.filter (fun q => !(strStarts "@" q)) (pk :: rkeys rest) =
          pk :: List.filter (fun q => !(strStarts "@" q)) (rkeys rest) from by
        simp [List.filter_cons, Bool.of_not_eq_true hpk]]
      rw [ih]

theorem parseJsonEntries_keys (x : Rec JVal) :
    rkeys (parseJsonEntries x) =
      (rkeys x).filter (fun q => !(strStarts "@" q)) :=
  parseAux_keys x x

theorem mkJsonEntry_value (raw : Rec JVal) (k : String) (v : JVal) :
    (mkJsonEntry raw k v).value = jsString v := by
  rw [mkJsonEntry]
  cases rlookup raw ("@" ++ k) with
  | none => rfl
  | some m =>
    dsimp only
    by_cases hm : truthy m = true
    · rw [if_pos hm]
    · rw [if_neg hm]

/-- The metadata value the writer attaches under `@k`, read off `jsonChunk`. -/
def chunkMd (withMeta : Bool) (entries : Rec LocaleEntry) (k : String) :
    Option JVal :=
  match rlookup entries k with
  | none => none
  | some e =>
    if withMeta &&
        (otruthy e.metadata || otruthy e.description || otruthy e.placeholders)
    then
      if (buildMeta e).isEmpty then none else some (JVal.obj (buildMeta e))
    else none

theorem rkeys_append {α : Type} (a b : Rec α) :
    rkeys (a ++ b) = rkeys a ++ rkeys b :=
  List.map_append _ _ _

theorem jsonChunk_lookup_self (wm : Bool) (entries : Rec LocaleEntry)
    (k : String) :
    rlookup (jsonChunk wm entries k) k =
      (rlookup entries k).map (fun e => JVal.str e.value) := by
  cases h : rlookup entries k with
  | none => simp [jsonChunk, h, rlookup]
  | some e =>
    simp only [jsonChunk, h]
    by_cases hc : (wm && (otruthy e.metadata || otruthy e.description ||
        otruthy e.placeholders)) = true
    · rw [if_pos hc]
      by_cases he : (buildMeta e).isEmpty = true
      · rw [if_pos he]
        simp [rlookup]
      · rw [if_neg he]
        rw [show ([(k, JVal.str e.value)] : Rec JVal) ++
              [("@" ++ k, JVal.obj (buildMeta e))] =
            (k, JVal.str e.value) :: [("@" ++ k, JVal.obj (buildMeta e))]
          from rfl]
        rw [rlookup_cons, if_pos rfl]
        rfl
    · rw [if_neg hc]
      simp [rlookup]

theorem jsonChunk_lookup_at (wm : Bool) (entries : Rec LocaleEntry)
    (k : String) (hk : strStarts "@" k = false) :
    rlookup (jsonChunk wm entries k) ("@" ++ k) = chunkMd wm entries k := by
  have hkk : k ≠ "@" ++ k := (at_append_ne hk k).symm
  cases h : rlookup entries k with
  | none => simp [jsonChunk, chunkMd, h, rlookup]
  | some e =>
    simp only [jsonChunk, chunkMd, h]
    by_cases hc : (wm && (otruthy e.metadata || otruthy e.description ||
        otruthy e.placeholders)) = true
    · rw [if_pos hc, if_pos hc]
      by_cases he : (buildMeta e).isEmpty = true
      · rw [if_pos he, if_pos he]
        rw [rlookup_cons, if_neg hkk]
        rfl
      · rw [if_neg he, if_neg he]
        rw [show ([(k, JVal.str e.value)] : Rec JVal) ++
              [("@" ++ k, JVal.obj (buildMeta e))] =
            (k, JVal.str e.value) :: [("@" ++ k, JVal.obj (buildMeta e))]
          from rfl]
        rw [rlookup_cons, if_neg hkk, rlookup_cons, if_pos rfl]
    · rw [if_neg hc, if_neg hc]
      rw [rlookup_cons, if_neg hkk]
      rfl

theorem jsonChunk_lookup_other (wm : Bool) (entries : Rec LocaleEntry)
    (k' q : String) (h1 : k' ≠ q) (h2 : "@" ++ k' ≠ q) :
    rlookup (jsonChunk wm entries k') q = none := by
  cases h : rlookup entries k' with
  | none => simp [jsonChunk, h, rlookup]
  | some e =>
    simp only [jsonChunk, h]
    by_cases hc : (wm && (otruthy e.metadata || otruthy e.description ||
        otruthy e.placeholders)) = true
    · rw [if_pos hc]
      by_cases he : (buildMeta e).isEmpty = true
      · rw [if_pos he]
        rw [rlookup_cons, if_neg h1]
        rfl
      · rw [if_neg he]
        rw [show ([(k', JVal.str e.value)] : Rec JVal) ++
              [("@" ++ k', JVal.obj (buildMeta e))] =
            (k', JVal.str e.value) :: [("@" ++ k', JVal.obj (buildMeta e))]
          from rfl]
        rw [rlookup_cons, if_neg h1, rlookup_cons, if_neg h2]
        rfl
    · rw [if_neg hc]
      rw [rlookup_cons, if_neg h1]
      rfl

theorem jsonChunk_keys_filter (wm : Bool) (entries : Rec LocaleEntry)
    (k : String) (hk : strStarts "@" k = false)
    (hs : (rlookup entries k).isSome = true) :
    (rkeys (jsonChunk wm entries k)).filter (fun q => !(strStarts "@" q)) =
      [k] := by
  cases h : rlookup entries k with
  | none => rw [h] at hs; simp at hs
  | some e =>
    simp only [jsonChunk, h]
    by_cases hc : (wm && (otruthy e.metadata || otruthy e.description ||
        otruthy e.placeholders)) = true
    · rw [if_pos hc]
      by_cases he : (buildMeta e).isEmpty = true
      · rw [if_pos he]
        simp [rkeys, List.filter_cons, hk]
      · rw [if_neg he]
        simp [rkeys, List.filter_cons, hk, strStarts_at_append]
    · rw [if_neg hc]
      simp [rkeys, List.filter_cons, hk]

theorem flat_lookup_nonat (wm : Bool) (entries : Rec LocaleEntry)
    (K : List String) (q : String) (hq : strStarts "@" q = false) :
    rlookup (K.flatMap (jsonChunk wm entries)) q =
      (if K.contains q
       then (rlookup entries q).map (fun e => JVal.str e.value)
       else none) := by
  induction K with
  | nil => simp [rlookup]
  | cons k K ih =>
    rw [List.flatMap_cons, rlookup_append, ih]
    by_cases hkq : k = q
    · subst hkq
      have hc : (k :: K).contains k = true :=
        contains_iff_mem.mpr (List.mem_cons_self k K)
      rw [jsonChunk_lookup_self, hc, if_pos rfl]
      cases h : rlookup entries k with
      | none =>
        simp only [Option.map_none']
        rw [Option.none_or]
        split <;> rfl
      | some e => rfl
    · have h0 : rlookup (jsonChunk wm entries k) q = none :=
        jsonChunk_lookup_other wm entries k q hkq (at_append_ne hq k)
      rw [h0, Option.none_or]
      by_cases hm : K.contains q = true
      · have hc : (k :: K).contains q = true := by
          rw [contains_iff_mem]
          exact List.mem_cons_of_mem k (contains_iff_mem.mp hm)
        rw [hm, hc]
      · have hm2 : K.contains q = false := Bool.of_not_eq_true hm
        have hc : (k :: K).contains q = false := by
          rw [Bool.eq_false_iff]
          intro hcc
          rcases List.mem_cons.mp (contains_iff_mem.mp hcc) with he | hmem
          · exact hkq he.symm
          · exact hm (contains_iff_mem.mpr hmem)
        rw [hm2, hc]

theorem flat_lookup_at (wm : Bool) (entries : Rec LocaleEntry)
    (K : List String) (hK : ∀ k2 ∈ K, strStarts "@" k2 = false)
    (k : String) (hk : strStarts "@" k = false) :
    rlookup (K.flatMap (jsonChunk wm entries)) ("@" ++ k) =
      (if K.contains k then chunkMd wm entries k else none) := by
  induction K with
  | nil => simp [rlookup]
  | cons k2 K ih =>
    have hk2 : strStarts "@" k2 = false := hK k2 (by simp)
    have ih2 := ih (fun a ha => hK a (List.mem_cons_of_mem k2 ha))
    rw [List.flatMap_cons, rlookup_append, ih2]
    by_cases hkk : k2 = k
    · subst hkk
      have hc : (k2 :: K).contains k2 = true :=
        contains_iff_mem.mpr (List.mem_cons_self k2 K)
      rw [jsonChunk_lookup_at wm entries k2 hk2, hc, if_pos rfl]
      cases hcm : chunkMd wm entries k2 with
      | none =>
        rw [Option.none_or]
        split <;> rfl
      | some v => rfl
    · have h0 : rlookup (jsonChunk wm entries k2) ("@" ++ k) = none :=
        jsonChunk_lookup_other wm entries k2 ("@" ++ k)
          (Ne.symm (at_append_ne hk2 k))
          (fun he => hkk (at_append_inj he))
      rw [h0, Option.none_or]
      by_cases hm : K.contains k = true
      · have hc : (k2 :: K).contains k = true := by
          rw [contains_iff_mem]
          exact List.mem_cons_of_mem k2 (contains_iff_mem.mp hm)
        rw [hm, hc]
      · have hm2 : K.contains k = false := Bool.of_not_eq_true hm
        have hc : (k2 :: K).contains k = false := by
          rw [Bool.eq_false_iff]
          intro hcc
          rcases List.mem_cons.mp (contains_iff_mem.mp hcc) with he | hmem
          · exact hkk he.symm
          · exact hm (contains_iff_mem.mpr hmem)
        rw [hm2, hc]

theorem flat_lookup_atatlocale (wm : Bool) (entries : Rec LocaleEntry)
    (K : List String) (hK : ∀ k2 ∈ K, strStarts "@" k2 = false) :
    rlookup (K.flatMap (jsonChunk wm entries)) "@@locale" = none := by
  induction K with
  | nil => rfl
  | cons k2 K ih =>
    have hk2 : strStarts "@" k2 = false := hK k2 (by simp)
    rw [List.flatMap_cons, rlookup_append,
      jsonChunk_lookup_other wm entries k2 "@@locale"
        (ne_atatlocale hk2) (at_append_ne_atatlocale hk2),
      Option.none_or]
    exact ih (fun a ha => hK a (List.mem_cons_of_mem k2 ha))

theorem flat_keys (wm : Bool) (entries : Rec LocaleEntry) (K : List String)
    (hK : ∀ k2 ∈ K, strStarts "@" k2 = false)
    (hS : ∀ k2 ∈ K, (rlookup entries k2).isSome = true) :
    (rkeys (K.flatMap (jsonChunk wm entries))).filter
        (fun q => !(strStarts "@" q)) = K := by
  induction K with
  | nil => rfl
  | cons k2 K ih =>
    have hk2 : strStarts "@" k2 = false := hK k2 (by simp)
    have hs2 : (rlookup entries k2).isSome = true := hS k2 (by simp)
    rw [List.flatMap_cons, rkeys_append, List.filter_append,
      jsonChunk_keys_filter wm entries k2 hk2 hs2,
      ih (fun a ha => hK a (List.mem_cons_of_mem k2 ha))
        (fun a ha => hS a (List.mem_cons_of_mem k2 ha))]
    rfl

theorem rlookup_reverse_nodup {α : Type} {fs : Rec α}
    (hn : (rkeys fs).Nodup) (k : String) :
    rlookup fs.reverse k = rlookup fs k := by
  cases h : rlookup fs k with
  | some v =>
    have hm : (k, v) ∈ fs := mem_of_rlookup_eq_some h
    have hn2 : (rkeys fs.reverse).Nodup := by
      rw [show rkeys fs.reverse = (rkeys fs).reverse from
        List.map_reverse _ _]
      exact List.nodup_reverse.mpr hn
    exact rlookup_of_mem_nodup hn2 (List.mem_reverse.mpr hm)
  | none =>
    have hk : k ∉ rkeys fs := (rlookup_eq_none_iff fs k).mp h
    apply (rlookup_eq_none_iff _ _).mpr
    rw [show rkeys fs.reverse = (rkeys fs).reverse from List.map_reverse _ _]
    simpa using hk

theorem or_absorb {a b : Option JVal} (h : b = none ∨ b = a) : a.or b = a := by
  rcases h with h | h <;> (rw [h]; cases a <;> rfl)

theorem lookup_single_part (fs : Rec JVal) (k1 fld : String) (d : JVal)
    (h1 : rlookup fs k1 = some d) :
    rlookup [(k1, d)] fld = none ∨ rlookup [(k1, d)] fld = rlookup fs fld := by
  by_cases e1 : k1 = fld
  · subst e1
    right
    rw [rlookup_cons, if_pos rfl, h1]
  · left
    rw [rlookup_cons, if_neg e1]
    rfl

theorem lookup_pair_part (fs : Rec JVal) (k1 k2 fld : String) (d p : JVal)
    (h1 : rlookup fs k1 = some d) (h2 : rlookup fs k2 = some p) :
    rlookup [(k1, d), (k2, p)] fld = none ∨
      rlookup [(k1, d), (k2, p)] fld = rlookup fs fld := by
  by_cases e1 : k1 = fld
  · subst e1
    right
    rw [rlookup_cons, if_pos rfl, h1]
  · rw [rlookup_cons, if_neg e1]
    by_cases e2 : k2 = fld
    · subst e2
      right
      rw [rlookup_cons, if_pos rfl, h2]
    · left
      rw [rlookup_cons, if_neg e2]
      rfl

theorem buildMeta_lookup (fs : Rec JVal) (hn : (rkeys fs).Nodup)
    (e : LocaleEntry)
    (hm : e.metadata = some (JVal.obj fs))
    (hd : e.description = rlookup fs "description")
    (hp : e.placeholders = rlookup fs "placeholders")
    (fld : String) :
    rlookup (buildMeta e) fld = rlookup fs fld := by
  simp only [buildMeta]
  rw [hm, hd, hp]
  dsimp only
  rw [show truthy (JVal.obj fs) = true from rfl, if_pos rfl]
  dsimp only [assignJ]
  rw [rlookup_foldl_rset, rlookup_reverse_nodup hn]
  apply or_absorb
  cases hdd : rlookup fs "description" with
  | none =>
    cases hpp : rlookup fs "placeholders" with
    | none => exact .inl rfl
    | some p =>
      dsimp only
      by_cases htp : truthy p = true
      · rw [if_pos htp]
        exact lookup_single_part fs "placeholders" fld p hpp
      · rw [if_neg htp]
        exact .inl rfl
  | some d =>
    cases hpp : rlookup fs "placeholders" with
    | none =>
      dsimp only
      by_cases htd : truthy d = true
      · rw [if_pos htd]
        exact lookup_single_part fs "description" fld d hdd
      · rw [if_neg htd]
        exact .inl rfl
    | some p =>
      dsimp only
      by_cases htd : truthy d = true
      · rw [if_pos htd]
        by_cases htp : truthy p = true
        · rw [if_pos htp]
          exact lookup_pair_part fs "description" "placeholders" fld d p
            hdd hpp
        · rw [if_neg htp]
          exact lookup_single_part fs "description" fld d hdd
      · rw [if_neg htd]
        by_cases htp : truthy p = true
        · rw [if_pos htp]
          exact lookup_single_part fs "placeholders" fld p hpp
        · rw [if_neg htp]
          exact .inl rfl

/-- The `@@locale` prefix emitted by `generateJsonContent` for the ARB
format. -/
def arbPrefix (x : Rec JVal) : Rec JVal :=
  match rlookup x "@@locale" with
  | some v => if truthy v then [("@@locale", v)] else []
  | none => []

theorem arbPrefix_lookup_locale (x : Rec JVal) (hloc : okLocale x = true) :
    rlookup (arbPrefix x) "@@locale" = rlookup x "@@locale" := by
  cases hv : rlookup x "@@locale" with
  | none => simp [arbPrefix, hv, rlookup]
  | some v =>
    have ht : truthy v = true := by
      simp only [okLocale, hv] at hloc
      exact hloc
    simp only [arbPrefix, hv]
    rw [if_pos ht, rlookup_cons, if_pos rfl]

theorem arbPrefix_lookup_ne (x : Rec JVal) (q : String)
    (hq : q ≠ "@@locale") : rlookup (arbPrefix x) q = none := by
  cases hv : rlookup x "@@locale" with
  | none => simp [arbPrefix, hv, rlookup]
  | some v =>
    simp only [arbPrefix, hv]
    by_cases ht : truthy v = true
    · rw [if_pos ht, rlookup_cons, if_neg (Ne.symm hq)]
      rfl
    · rw [if_neg ht]
      rfl

theorem arbPrefix_keys_filter (x : Rec JVal) :
    (rkeys (arbPrefix x)).filter (fun q => !(strStarts "@" q)) = [] := by
  cases hv : rlookup x "@@locale" with
  | none => simp [arbPrefix, hv, rkeys]
  | some v =>
    simp only [arbPrefix, hv]
    by_cases ht : truthy v = true
    · rw [if_pos ht]
      rfl
    · rw [if_neg ht]
      rfl

/-- **C2** (corrected to the ARB format; see `spec_C2_counterexample` for the
plain-JSON formats).  For a well-formed raw ARB object `x` — plain keys hold
strings, `@`-keys hold metadata objects with unique field names, a present
`@@locale` marker is truthy — writing the parsed file back reproduces `x`
structurally: the `@@locale` marker is preserved verbatim, every plain key
maps to its original value, the modeled metadata fields (`description`,
`placeholders`, and every other field of the `@k` companion object) are
preserved, and when the ordering policy is not `alphabetical` the plain keys
appear in their original document order. -/
theorem spec_C2_roundtrip (config : LocalzConfig) (locale path : String)
    (x : Rec JVal)
    (hstr : ∀ p ∈ x, strStarts "@" p.1 = false → isStrVal p.2 = true)
    (hmeta : ∀ p ∈ x, strStarts "@" p.1 = true →
        strStarts "@@" p.1 = false → isMetaObj p.2 = true)
    (hloc : okLocale x = true) :
    (rlookup (generateJsonContent config
        (parseJsonFile LFormat.arb locale path x)) "@@locale" =
      rlookup x "@@locale")
    ∧ (∀ k, strStarts "@" k = false →
        rlookup (generateJsonContent config
          (parseJsonFile LFormat.arb locale path x)) k = rlookup x k)
    ∧ (∀ k fld, strStarts "@" k = false → k ∈ rkeys x →
        mdField (generateJsonContent config
          (parseJsonFile LFormat.arb locale path x)) k fld =
          mdField x k fld)
    ∧ (config.preferOrder ≠ some PreferOrder.alphabetical →
        (rkeys (generateJsonContent config
            (parseJsonFile LFormat.arb locale path x))).filter
          (fun q => !(strStarts "@" q)) =
          (rkeys x).filter (fun q => !(strStarts "@" q))) := by
  obtain ⟨K, hKdef⟩ : ∃ K,
      (if config.preferOrder = some PreferOrder.alphabetical
       then sortStr (rkeys (parseJsonEntries x))
       else rkeys (parseJsonEntries x)) = K := ⟨_, rfl⟩
  have hsplit : generateJsonContent config
      (parseJsonFile LFormat.arb locale path x) =
      arbPrefix x ++ K.flatMap (jsonChunk true (parseJsonEntries x)) := by
    rw [← hKdef]
    rfl
  have hperm : List.Perm K (rkeys (parseJsonEntries x)) := by
    rw [← hKdef]
    by_cases hpol : config.preferOrder = some PreferOrder.alphabetical
    · rw [if_pos hpol]
      exact sortStr_perm _
    · rw [if_neg hpol]
  have hK0a : ∀ k2 ∈ rkeys (parseJsonEntries x), strStarts "@" k2 = false := by
    intro k2 hk2
    rw [parseJsonEntries_keys] at hk2
    have h2 := List.of_mem_filter hk2
    simpa using h2
  have hKa : ∀ k2 ∈ K, strStarts "@" k2 = false :=
    fun k2 h => hK0a k2 (hperm.mem_iff.mp h)
  have hKs : ∀ k2 ∈ K,
      (rlookup (parseJsonEntries x) k2).isSome = true :=
    fun k2 h => (rlookup_isSome_iff _ _).mpr (hperm.mem_iff.mp h)
  have hKmem : ∀ k2, strStarts "@" k2 = false → k2 ∈ rkeys x →
      K.contains k2 = true := by
    intro k2 hk2 hmem
    rw [contains_iff_mem, hperm.mem_iff, parseJsonEntries_keys]
    refine List.mem_filter.mpr ⟨hmem, ?_⟩
    rw [hk2]
    rfl
  refine ⟨?_, ?_, ?_, ?_⟩
  · rw [hsplit, rlookup_append, flat_lookup_atatlocale true _ K hKa,
      arbPrefix_lookup_locale x hloc]
    cases rlookup x "@@locale" <;> rfl
  · intro k hk
    rw [hsplit, rlookup_append,
      arbPrefix_lookup_ne x k (ne_atatlocale hk), Option.none_or,
      flat_lookup_nonat true _ K k hk]
    cases hxk : rlookup x k with
    | some v =>
      have hmem : k ∈ rkeys x := by
        rw [← rlookup_isSome_iff, hxk]
        rfl
      rw [hKmem k hk hmem, if_pos rfl, parseJsonEntries_lookup, hk,
        if_neg Bool.false_ne_true, hxk]
      have hv := hstr (k, v) (mem_of_rlookup_eq_some hxk) hk
      cases v with
      | obj fs =>
        simp [isStrVal] at hv
      | str s =>
        simp only [Option.map_some']
        rw [mkJsonEntry_value]
        rfl
    | none =>
      have hnm : k ∉ rkeys x := (rlookup_eq_none_iff x k).mp hxk
      have hc : K.contains k = false := by
        rw [Bool.eq_false_iff]
        intro hcc
        have h2 := hperm.mem_iff.mp (contains_iff_mem.mp hcc)
        rw [parseJsonEntries_keys] at h2
        exact hnm (List.mem_of_mem_filter h2)
      rw [hc, if_neg Bool.false_ne_true]
  · intro k fld hk hmem
    have hxk : ∃ v, rlookup x k = some v := by
      cases hxk : rlookup x k with
      | none => exact absurd hmem ((rlookup_eq_none_iff x k).mp hxk)
      | some v => exact ⟨v, rfl⟩
    obtain ⟨v, hxk⟩ := hxk
    have hE : rlookup (parseJsonEntries x) k = some (mkJsonEntry x k v) := by
      rw [parseJsonEntries_lookup, hk, if_neg Bool.false_ne_true, hxk]
      rfl
    simp only [mdField, hsplit, rlookup_append]
    rw [arbPrefix_lookup_ne x ("@" ++ k) (at_append_ne_atatlocale hk),
      Option.none_or, flat_lookup_at true _ K hKa k hk,
      hKmem k hk hmem, if_pos rfl]
    simp only [chunkMd, hE]
    cases hat : rlookup x ("@" ++ k) with
    | none =>
      have hmk : mkJsonEntry x k v =
          { key := k, value := jsString v } := by
        simp only [mkJsonEntry, hat]
      rw [hmk]
      rfl
    | some m =>
      have hmm := hmeta ("@" ++ k, m) (mem_of_rlookup_eq_some hat)
        (strStarts_at_append k)
        (by rw [strStarts_atat_append]; exact hk)
      cases m with
      | str s =>
        simp [isMetaObj] at hmm
      | obj fs =>
        have hnd : (rkeys fs).Nodup := by
          simpa [isMetaObj] using hmm
        have hm1 : (mkJsonEntry x k v).metadata = some (JVal.obj fs) := by
          simp only [mkJsonEntry, hat]
          rw [show truthy (JVal.obj fs) = true from rfl, if_pos rfl]
        have hd1 : (mkJsonEntry x k v).description =
            rlookup fs "description" := by
          simp only [mkJsonEntry, hat]
          rw [show truthy (JVal.obj fs) = true from rfl, if_pos rfl]
          rfl
        have hp1 : (mkJsonEntry x k v).placeholders =
            rlookup fs "placeholders" := by
          simp only [mkJsonEntry, hat]
          rw [show truthy (JVal.obj fs) = true from rfl, if_pos rfl]
          rfl
        have hcnd : (true && (otruthy (mkJsonEntry x k v).metadata ||
            otruthy (mkJsonEntry x k v).description ||
            otruthy (mkJsonEntry x k v).placeholders)) = true := by
          rw [hm1]
          rfl
        rw [hcnd, if_pos rfl]
        have hbm := buildMeta_lookup fs hnd (mkJsonEntry x k v)
          hm1 hd1 hp1 fld
        by_cases hemp : (buildMeta (mkJsonEntry x k v)).isEmpty = true
        · rw [if_pos hemp]
          have h0 : buildMeta (mkJsonEntry x k v) = [] :=
            List.isEmpty_iff.mp hemp
          rw [h0] at hbm
          exact hbm
        · rw [if_neg hemp]
          exact hbm
  · intro hord
    have hKeq : K = rkeys (parseJsonEntries x) := by
      rw [← hKdef, if_neg hord]
    rw [hsplit, rkeys_append, List.filter_append, arbPrefix_keys_filter,
      List.nil_append, flat_keys true _ K hKa hKs, hKeq,
      parseJsonEntries_keys]

def c2cfg : LocalzConfig := { doAutoFix := false }

def c2x : Rec JVal :=
  [("@@locale", JVal.str "en"),
   ("greet", JVal.str "Hello {name}"),
   ("@greet", JVal.obj
     [("description", JVal.str "hi"),
      ("placeholders", JVal.obj [("name", JVal.obj [])])]),
   ("plain", JVal.str "ok")]

theorem spec_C2_roundtrip_witness :
    (∀ p ∈ c2x, strStarts "@" p.1 = false → isStrVal p.2 = true)
    ∧ (∀ p ∈ c2x, strStarts "@" p.1 = true →
        strStarts "@@" p.1 = false → isMetaObj p.2 = true)
    ∧ okLocale c2x = true
    ∧ ((rlookup (generateJsonContent c2cfg
          (parseJsonFile LFormat.arb "en" "app_en.arb" c2x)) "@@locale" =
        rlookup c2x "@@locale")
      ∧ (∀ k, strStarts "@" k = false →
          rlookup (generateJsonContent c2cfg
            (parseJsonFile LFormat.arb "en" "app_en.arb" c2x)) k =
            rlookup c2x k)
      ∧ (∀ k fld, strStarts "@" k = false → k ∈ rkeys c2x →
          mdField (generateJsonContent c2cfg
            (parseJsonFile LFormat.arb "en" "app_en.arb" c2x)) k fld =
            mdField c2x k fld)
      ∧ (c2cfg.preferOrder ≠ some PreferOrder.alphabetical →
          (rkeys (generateJsonContent c2cfg
              (parseJsonFile LFormat.arb "en" "app_en.arb" c2x))).filter
            (fun q => !(strStarts "@" q)) =
            (rkeys c2x).filter (fun q => !(strStarts "@" q)))) :=
  ⟨by decide, by decide, by decide,
    spec_C2_roundtrip c2cfg "en" "app_en.arb" c2x
      (by decide) (by decide) (by decide)⟩

def c2xj : Rec JVal :=
  [("greet", JVal.str "Hello"),
   ("@greet", JVal.obj [("description", JVal.str "hi")])]

/-- Counterexample for C2 as stated: the round-trip does not hold for every
supported format.  For the plain JSON format, `parseFile` populates the
entry's `description` from the `@greet` companion object, but
`generateJsonContent` emits metadata only for the ARB format — the written
document has no `@greet` key at all, so the modeled `description` field of
the round-tripped document is `none` while the original holds `"hi"`. -/
theorem spec_C2_counterexample :
    (rlookup (parseJsonEntries c2xj) "greet").map
        (fun e => e.description) = some (some (JVal.str "hi"))
    ∧ mdField (generateJsonContent c2cfg
        (parseJsonFile LFormat.json "en" "en.json" c2xj)) "greet"
        "description" = none
    ∧ mdField c2xj "greet" "description" = some (JVal.str "hi") :=
  ⟨rfl, rfl, rfl⟩
